import Mathlib

/-!
# Verification of the `confbuilder` layered configuration builder

A shallow embedding of `confbuilder/builder.go` (package `confbuilder` of
`fulcrumproject/utils`): the generic configuration builder that layers an
in-memory default, an optional JSON file and environment variables
(optionally seeded from `.env` files discovered by walking ancestor
directories), with type coercion for primitives, durations, `slog` levels
and string slices, followed by declarative validation.

Go's reflective walk over an arbitrary struct type is embedded as a walk
over a universe `Value` of configuration trees.  Mutation of the target
struct is embedded as explicit state passing: every phase returns the
updated tree together with an optional error message (Go's mutate-then-
return-error behaviour, so a partially applied tree survives a failure).
Machine integers are modelled as `Int`/`Nat` with explicit two's-complement
truncation at the destination width where the source performs a reflective
`SetInt`/`SetUint`.

External collaborators are modelled at the granularity of their documented
behaviour:
* `strconv.ParseInt/ParseUint/ParseBool/ParseFloat`, `time.ParseDuration`
  and `slog.Level.UnmarshalText` are implemented below, following the Go
  standard library's grammar and error texts (`strconv.Quote` of a literal
  is modelled as plain double quoting, which agrees with Go on literals
  that need no escaping; `ParseFloat`'s hexadecimal-float and
  underscore-separator forms are not modelled, and float values are kept
  as exact decimals rather than IEEE doubles — no claim below depends on
  rounding);
* `encoding/json.Unmarshal` is modelled as a well-formedness check
  followed by a field-wise overlay that records the first type-mismatch
  error but keeps decoding (Go's `saveError` behaviour); a syntactically
  malformed document applies nothing;
* `github.com/jinzhu/copier.Copy` runs in its default mode, which assigns
  each matching field wholesale (`to.Set(from)`): scalar fields are copied
  by value, but a slice field's header is copied while its backing array
  stays shared with the source.  The pipeline below tracks field *values*
  (faithful for every observation the pipeline itself makes: the file and
  environment overlays replace whole field values and never write into an
  existing backing array element-wise); the backing-array sharing that the
  default-mode clone leaves between the returned configuration and the
  stored default is modelled explicitly by `GoField`/`Heap` below for the
  ownership analysis;
* `github.com/joho/godotenv.Load` is modelled as: parse the file into a
  last-occurrence-wins key/value map, then set exactly those keys that are
  not already present in the process environment;
* `github.com/go-playground/validator` is an opaque parameter of the
  world: an arbitrary function from the merged tree to an optional
  validation-error message.
-/

set_option linter.unusedVariables false

namespace Confbuilder

/-- Bit widths of Go's signed/unsigned integer kinds.  `iword` is the
platform-sized `int`/`uint`, modelled as 64 bits. -/
inductive IntW where
  | i8 | i16 | i32 | i64 | iword
  deriving DecidableEq, Repr

def IntW.bits : IntW → Nat
  | .i8 => 8
  | .i16 => 16
  | .i32 => 32
  | .i64 => 64
  | .iword => 64

/-- A Go floating-point value as stored in a config field.  Finite values
are kept as exact rationals (decimal literals are exact; IEEE rounding is
abstracted away — no claim depends on it). -/
inductive GoFloat where
  | num (q : ℚ)
  | inf (neg : Bool)
  | nan
  deriving DecidableEq, Repr

mutual

/-- A configuration value: the universe over which the reflective walk of
`loadEnvToStruct` / `json.Unmarshal` operates.  Constructors correspond to
the `reflect.Kind` cases handled by `builder.go` (line 196's switch), with
`time.Duration` and `slog.Level` — special-cased by the source inside the
signed-integer case — as their own constructors.  `duration` and `level`
carry the underlying `int64`/`int` value. -/
inductive Value where
  | str (s : String)
  | intv (w : IntW) (n : Int)
  | duration (ns : Int)
  | level (n : Int)
  | uintv (w : IntW) (n : Nat)
  | floatv (is32 : Bool) (f : GoFloat)
  | boolv (b : Bool)
  | strSlice (xs : List String)
  | struct (fs : Fields)
  deriving DecidableEq

/-- The field list of a struct value (a bespoke list so that all
recursions below are structural and compute by `rfl`/`decide`). -/
inductive Fields where
  | nil
  | cons (f : Field) (rest : Fields)
  deriving DecidableEq

/-- One struct field: Go field name, exportedness (`CanSet`), the struct
tag key/value pairs, and the field's value. -/
inductive Field where
  | mk (name : String) (exported : Bool) (tags : List (String × String)) (value : Value)
  deriving DecidableEq

end

namespace Field

def name : Field → String
  | .mk n _ _ _ => n

def exported : Field → Bool
  | .mk _ e _ _ => e

def tags : Field → List (String × String)
  | .mk _ _ ts _ => ts

def value : Field → Value
  | .mk _ _ _ v => v

/-- Replace the field's value, keeping name/exportedness/tags. -/
def withValue : Field → Value → Field
  | .mk n e ts _, v => .mk n e ts v

end Field

/-- `reflect.StructTag.Lookup(key)` on a tag list: first matching key,
`none` when absent. -/
def tagLookup (ts : List (String × String)) (key : String) : Option String :=
  (ts.find? (fun p => p.1 = key)).map (·.2)

/-- `field.Tag.Lookup(key)`: first matching tag key, `none` when absent. -/
def Field.lookupTag (f : Field) (key : String) : Option String :=
  tagLookup f.tags key

namespace Fields

def get? : Fields → Nat → Option Field
  | .nil, _ => none
  | .cons f _, 0 => some f
  | .cons _ fs, n + 1 => fs.get? n

def length : Fields → Nat
  | .nil => 0
  | .cons _ fs => fs.length + 1

end Fields

/-! ## String helpers (models of Go `strings`/`unicode` behaviour) -/

/-- ASCII lower-casing of a character (`strings.ToLower` restricted to the
ASCII letters actually exercised by the builder). -/
def lowerChar (c : Char) : Char :=
  if 'A' ≤ c ∧ c ≤ 'Z' then Char.ofNat (c.toNat + 32) else c

/-- ASCII upper-casing of a character (`strings.ToUpper` restricted to
ASCII; the builder only upper-cases `slog` level names, which are ASCII). -/
def upperChar (c : Char) : Char :=
  if 'a' ≤ c ∧ c ≤ 'z' then Char.ofNat (c.toNat - 32) else c

def asciiUpper (s : String) : String := String.mk (s.toList.map upperChar)

def asciiLower (s : String) : String := String.mk (s.toList.map lowerChar)

/-- `unicode.IsSpace` (the Unicode `White_Space` property), used by
`strings.TrimSpace`. -/
def isGoSpace (c : Char) : Bool :=
  let n := c.toNat
  (9 ≤ n ∧ n ≤ 13) ∨ n = 32 ∨ n = 0x85 ∨ n = 0xA0 ∨ n = 0x1680 ∨
    (0x2000 ≤ n ∧ n ≤ 0x200A) ∨ n = 0x2028 ∨ n = 0x2029 ∨ n = 0x202F ∨
    n = 0x205F ∨ n = 0x3000

/-- `strings.TrimSpace`: drop leading and trailing Unicode white space. -/
def trimSpace (s : String) : String :=
  String.mk (((s.toList.dropWhile isGoSpace).reverse.dropWhile isGoSpace).reverse)

/-- `strconv.Quote`, modelled as plain double quoting (exact for literals
containing no characters that Go would escape; claims only quote such
literals). -/
def goQuote (s : String) : String := "\"" ++ s ++ "\""

/-! ## Models of the Go standard-library parsers used by the coercion
engine.  Error strings follow `strconv`'s `NumError` / `time`'s error
formatting. -/

def syntaxErr (fn s : String) : String :=
  "strconv." ++ fn ++ ": parsing " ++ goQuote s ++ ": invalid syntax"

def rangeErr (fn s : String) : String :=
  "strconv." ++ fn ++ ": parsing " ++ goQuote s ++ ": value out of range"

def digitsToNat (ds : List Char) : Nat :=
  ds.foldl (fun a c => a * 10 + (c.toNat - '0'.toNat)) 0

/-- `strconv.ParseInt(s, 10, 64)`: optional sign, one or more base-10
digits (no underscores with an explicit base), 64-bit range check. -/
def parseInt64 (s : String) : Except String Int :=
  let cs := s.toList
  let signed : Bool × List Char :=
    match cs with
    | '-' :: rest => (true, rest)
    | '+' :: rest => (false, rest)
    | _ => (false, cs)
  let neg := signed.1
  let ds := signed.2
  if ds.isEmpty ∨ ¬ ds.all Char.isDigit then .error (syntaxErr "ParseInt" s)
  else
    let n : Int := (digitsToNat ds : Int)
    let v : Int := if neg then -n else n
    if v < -(2 ^ 63) ∨ 2 ^ 63 - 1 < v then .error (rangeErr "ParseInt" s)
    else .ok v

/-- `strconv.ParseUint(s, 10, 64)`: no sign permitted, one or more
base-10 digits, 64-bit range check. -/
def parseUint64 (s : String) : Except String Nat :=
  let cs := s.toList
  if cs.isEmpty ∨ ¬ cs.all Char.isDigit then .error (syntaxErr "ParseUint" s)
  else
    let n := digitsToNat cs
    if 2 ^ 64 - 1 < n then .error (rangeErr "ParseUint" s)
    else .ok n

/-- `strconv.ParseBool`: exactly the literals Go accepts. -/
def parseBool (s : String) : Except String Bool :=
  if s = "1" ∨ s = "t" ∨ s = "T" ∨ s = "TRUE" ∨ s = "true" ∨ s = "True" then .ok true
  else if s = "0" ∨ s = "f" ∨ s = "F" ∨ s = "FALSE" ∨ s = "false" ∨ s = "False" then .ok false
  else .error (syntaxErr "ParseBool" s)

/-- The final step of `strconv.ParseFloat`: apply the sign and check the
IEEE overflow/underflow boundary (approximated by `2^1024` / `2^-1075`;
no claim depends on the exact rounding boundary). -/
def parseFloatFinish (s : String) (neg : Bool) (q : ℚ) : Except String GoFloat :=
  let v := if neg then -q else q
  if (2 : ℚ) ^ 1024 ≤ |v| then .error (rangeErr "ParseFloat" s)
  else if v ≠ 0 ∧ |v| < 1 / (2 : ℚ) ^ 1075 then .error (rangeErr "ParseFloat" s)
  else .ok (.num v)

/-- `strconv.ParseFloat(s, 64)` on decimal forms: optional sign, `inf`/
`infinity`/`nan` (case-insensitive), or digits with optional fraction and
optional decimal exponent.  Finite values are exact rationals
(hexadecimal floats and digit-group underscores are not modelled). -/
def parseFloat (s : String) : Except String GoFloat :=
  let cs := s.toList
  let signed : Bool × List Char :=
    match cs with
    | '-' :: rest => (true, rest)
    | '+' :: rest => (false, rest)
    | _ => (false, cs)
  let neg := signed.1
  let body := signed.2
  let low := String.mk (body.map lowerChar)
  if low = "inf" ∨ low = "infinity" then .ok (.inf neg)
  else if low = "nan" then .ok .nan
  else
    let ip := body.takeWhile Char.isDigit
    let rest1 := body.dropWhile Char.isDigit
    let hasDot := match rest1 with | '.' :: _ => true | _ => false
    let fp := if hasDot then (rest1.drop 1).takeWhile Char.isDigit else []
    let rest2 := if hasDot then (rest1.drop 1).dropWhile Char.isDigit else rest1
    if ip.isEmpty ∧ fp.isEmpty then .error (syntaxErr "ParseFloat" s)
    else
      let mant : ℚ := (digitsToNat ip : ℚ) + (digitsToNat fp : ℚ) / ((10 : ℚ) ^ fp.length)
      match rest2 with
      | [] => parseFloatFinish s neg mant
      | e :: r =>
        if e = 'e' ∨ e = 'E' then
          let esigned : Bool × List Char :=
            match r with
            | '-' :: rr => (true, rr)
            | '+' :: rr => (false, rr)
            | _ => (false, r)
          if esigned.2.isEmpty ∨ ¬ esigned.2.all Char.isDigit then
            .error (syntaxErr "ParseFloat" s)
          else
            let ex := digitsToNat esigned.2
            parseFloatFinish s neg
              (if esigned.1 then mant / (10 : ℚ) ^ ex else mant * (10 : ℚ) ^ ex)
        else .error (syntaxErr "ParseFloat" s)

/-! ### `time.ParseDuration` -/

def durationInvalid (orig : String) : String :=
  "time: invalid duration " ++ goQuote orig

def durationMissingUnit (orig : String) : String :=
  "time: missing unit in duration " ++ goQuote orig

def durationUnknownUnit (unit orig : String) : String :=
  "time: unknown unit " ++ goQuote unit ++ " in duration " ++ goQuote orig

/-- The unit table of `time.ParseDuration`, in nanoseconds. -/
def durationUnit : String → Option Nat
  | "ns" => some 1
  | "us" => some 1000
  | "µs" => some 1000
  | "μs" => some 1000
  | "ms" => some 1000000
  | "s" => some 1000000000
  | "m" => some 60000000000
  | "h" => some 3600000000000
  | _ => none

/-- Is this character part of a unit token?  `time.ParseDuration` ends the
unit at the next digit or `'.'`. -/
def isUnitChar (c : Char) : Bool := ¬ (c.isDigit ∨ c = '.')

/-- One `(number unit)` segment loop of `time.ParseDuration`, with fuel
(each iteration consumes at least one character, so `fuel = length + 1`
never runs out; the fuel-exhausted branch is unreachable).  Accumulates
exact nanoseconds as a rational (Go truncates the fractional part through
`float64`; the truncation below is exact division then floor, which
agrees on the values at issue — no claim depends on sub-nanosecond
rounding). -/
def parseDurationLoop (orig : String) (fuel : Nat) (cs : List Char) (acc : Nat) :
    Except String Nat :=
  match fuel with
  | 0 => .error (durationInvalid orig)
  | fuel + 1 =>
    match cs with
    | [] => .ok acc
    | _ =>
      let ip := cs.takeWhile Char.isDigit
      let rest1 := cs.dropWhile Char.isDigit
      let hasDot := match rest1 with | '.' :: _ => true | _ => false
      let fp := if hasDot then (rest1.drop 1).takeWhile Char.isDigit else []
      let rest2 := if hasDot then (rest1.drop 1).dropWhile Char.isDigit else rest1
      if ip.isEmpty ∧ fp.isEmpty then .error (durationInvalid orig)
      else
        let unitCs := rest2.takeWhile isUnitChar
        let rest3 := rest2.dropWhile isUnitChar
        if unitCs.isEmpty then .error (durationMissingUnit orig)
        else
          match durationUnit (String.mk unitCs) with
          | none => .error (durationUnknownUnit (String.mk unitCs) orig)
          | some u =>
            let seg := digitsToNat ip * u + digitsToNat fp * u / 10 ^ fp.length
            let acc' := acc + seg
            if 2 ^ 63 - 1 < acc' then .error (durationInvalid orig)
            else parseDurationLoop orig fuel rest3 acc'

/-- `time.ParseDuration`: optional sign, the special case `"0"`, then one
or more `(number unit)` segments. -/
def parseDuration (s : String) : Except String Int :=
  let cs := s.toList
  let signed : Bool × List Char :=
    match cs with
    | '-' :: rest => (true, rest)
    | '+' :: rest => (false, rest)
    | _ => (false, cs)
  let neg := signed.1
  let body := signed.2
  if body = ['0'] then .ok 0
  else if body.isEmpty then .error (durationInvalid s)
  else
    match parseDurationLoop s (body.length + 1) body 0 with
    | .error m => .error m
    | .ok n => .ok (if neg then -(n : Int) else (n : Int))

/-! ### `slog.Level.UnmarshalText` -/

/-- Index of the first `'+'` or `'-'` (`strings.IndexAny(s, "+-")`). -/
def indexPlusMinus : List Char → Option Nat
  | [] => none
  | c :: cs =>
    if c = '+' ∨ c = '-' then some 0
    else (indexPlusMinus cs).map (· + 1)

/-- `slog.Level.parse` (reached via `UnmarshalText`): split at the first
sign character, match the name (upper-cased) against the four level
names, parse the rest (sign included) with `strconv.Atoi`, and add the
offset.  `DEBUG = -4`, `INFO = 0`, `WARN = 4`, `ERROR = 8`. -/
def parseLevel (s : String) : Option Int :=
  let cs := s.toList
  let split : List Char × List Char :=
    match indexPlusMinus cs with
    | some i => (cs.take i, cs.drop i)
    | none => (cs, [])
  let offset : Option Int :=
    if split.2.isEmpty then some 0
    else (parseInt64 (String.mk split.2)).toOption
  let base : Option Int :=
    match asciiUpper (String.mk split.1) with
    | "DEBUG" => some (-4)
    | "INFO" => some 0
    | "WARN" => some 4
    | "ERROR" => some 8
    | _ => none
  match base, offset with
  | some b, some o => some (b + o)
  | _, _ => none

/-- Helper for `strings.Split(s, ",")`: split the remaining characters at
every comma, `acc` holding the (reversed) current part. -/
def splitCommaAux : List Char → List Char → List String
  | [], acc => [String.mk acc.reverse]
  | c :: cs, acc =>
    if c = ',' then String.mk acc.reverse :: splitCommaAux cs []
    else splitCommaAux cs (c :: acc)

/-- `strings.Split(s, ",")`: every part between commas, empties kept;
`""` gives `[""]`, as in Go. -/
def goSplitComma (s : String) : List String := splitCommaAux s.toList []

/-- `strings.Split(s, ",")` followed by `strings.TrimSpace` on each part
(lines 248–252 of `builder.go`). -/
def splitTrim (s : String) : List String :=
  (goSplitComma s).map trimSpace

instance {ε α : Type} [DecidableEq ε] [DecidableEq α] : DecidableEq (Except ε α) := by
  intro a b
  cases a <;> cases b
  case error.error e f =>
    exact if h : e = f then isTrue (by rw [h]) else isFalse (by simp [h])
  case ok.ok x y =>
    exact if h : x = y then isTrue (by rw [h]) else isFalse (by simp [h])
  all_goals exact isFalse (by simp)

/-! ## The environment overlay (`loadEnvToStruct`, lines 130–259) -/

/-- The process environment as read by `os.Getenv`: total, returning `""`
for unset variables — exactly the conflation `builder.go` relies on at
line 191. -/
abbrev GoEnv := String → String

/-- `reflect.Value.SetInt` on a destination of width `w`: Go converts the
parsed 64-bit value with an ordinary (two's-complement truncating) integer
conversion — there is no overflow panic or error. -/
def truncInt (w : IntW) (v : Int) : Int :=
  if v.emod (2 ^ w.bits) < 2 ^ (w.bits - 1) then v.emod (2 ^ w.bits)
  else v.emod (2 ^ w.bits) - 2 ^ w.bits

/-- `reflect.Value.SetUint` on a destination of width `w`: truncating
conversion of the parsed 64-bit value. -/
def truncUint (w : IntW) (v : Nat) : Nat := v % 2 ^ w.bits

/-- Lines 181–187: the full environment-variable name obtained by joining
the accumulated parent path with the field's own tag segment. -/
def joinPath (pp t : String) : String := if pp = "" then t else pp ++ "_" ++ t

/-- The type-coercion switch of lines 195–255, applied to one field whose
tag value is `envVar` and whose (non-empty) raw environment value is
`envValue`.  Returns the updated field and an optional coercion error; a
parse failure leaves the field untouched.  The error texts are the
`fmt.Errorf` formats of the source with `%w`/`%s` expanded. -/
def setFieldFromEnv (f : Field) (envVar envValue : String) : Field × Option String :=
  match f.value with
  | .str _ => (f.withValue (.str envValue), none)
  | .duration _ =>
    match parseDuration envValue with
    | .error m => (f, some ("invalid duration value for " ++ envVar ++ ": " ++ m))
    | .ok d => (f.withValue (.duration d), none)
  | .level _ =>
    match parseLevel (asciiUpper envValue) with
    | none => (f, some ("invalid slog level value for " ++ envVar ++ ": " ++ envValue))
    | some l => (f.withValue (.level l), none)
  | .intv w _ =>
    match parseInt64 envValue with
    | .error m => (f, some ("invalid integer value for " ++ envVar ++ ": " ++ m))
    | .ok v => (f.withValue (.intv w (truncInt w v)), none)
  | .uintv w _ =>
    match parseUint64 envValue with
    | .error m => (f, some ("invalid unsigned integer value for " ++ envVar ++ ": " ++ m))
    | .ok v => (f.withValue (.uintv w (truncUint w v)), none)
  | .floatv is32 _ =>
    match parseFloat envValue with
    | .error m => (f, some ("invalid float value for " ++ envVar ++ ": " ++ m))
    | .ok q => (f.withValue (.floatv is32 q), none)
  | .boolv _ =>
    match parseBool envValue with
    | .error m => (f, some ("invalid boolean value for " ++ envVar ++ ": " ++ m))
    | .ok b => (f.withValue (.boolv b), none)
  | .strSlice _ => (f.withValue (.strSlice (splitTrim envValue)), none)
  | .struct _ => (f, none)

/-- Lines 157–168: the recursion path for a struct-valued field — its own
tag segment is appended when present and non-empty, otherwise the parent
path is passed down unchanged. -/
def extendPath (pp : String) (t? : Option String) : String :=
  match t? with
  | some t => if t = "" then pp else joinPath pp t
  | none => pp

/-- Lines 176–255 for one field after any struct recursion: if the field
carries a non-empty tag and the environment value at
`prefix + fullEnvVar` is non-empty, run the coercion switch; otherwise
leave the field alone. -/
def leafStep (env : GoEnv) (pre tag pp : String) (f : Field) : Field × Option String :=
  match tagLookup f.tags tag with
  | none => (f, none)
  | some envVar =>
    if envVar = "" then (f, none)
    else
      let envValue := env (pre ++ joinPath pp envVar)
      if envValue = "" then (f, none)
      else setFieldFromEnv f envVar envValue

mutual

/-- The loop body of `loadEnvToStruct` for one field (lines 143–256):
skip unexported fields; recurse into struct-valued fields first, the path
extended per `extendPath`; then run `leafStep`.  Errors keep the mutation
applied so far (Go mutates in place). -/
def loadField (env : GoEnv) (pre tag pp : String) : Field → Field × Option String
  | .mk nm ex tags v =>
    if ex = false then (.mk nm ex tags v, none)
    else
      let recursed : Field × Option String :=
        match v with
        | .struct fs =>
          let r := loadFields env pre tag (extendPath pp (tagLookup tags tag)) fs
          match r.2 with
          | some m =>
            (.mk nm ex tags (.struct r.1),
             some ("error loading sub config field " ++ nm ++ ": " ++ m))
          | none => (.mk nm ex tags (.struct r.1), none)
        | _ => (.mk nm ex tags v, none)
      match recursed.2 with
      | some m => (recursed.1, some m)
      | none => leafStep env pre tag pp recursed.1

/-- The field loop of lines 143–256: fields in declaration order, stopping
at (and returning) the first error, later fields untouched. -/
def loadFields (env : GoEnv) (pre tag pp : String) : Fields → Fields × Option String
  | .nil => (.nil, none)
  | .cons f fs =>
    let r := loadField env pre tag pp f
    match r.2 with
    | some m => (.cons r.1 fs, some m)
    | none =>
      let rs := loadFields env pre tag pp fs
      (.cons r.1 rs.1, rs.2)

end

/-- `loadEnvToStruct` (line 130): the builder always passes a non-nil
pointer to a struct, so the pointer-dereference loop of lines 134–139 is
the identity here; non-struct targets are outside the builder's use. -/
def loadEnvToStruct (env : GoEnv) (pre tag pp : String) : Value → Value × Option String
  | .struct fs =>
    let r := loadFields env pre tag pp fs
    (.struct r.1, r.2)
  | v => (v, none)

/-! ## The JSON file overlay (`encoding/json.Unmarshal`, line 105) -/

mutual

/-- A parsed JSON document shaped for decoding into a config tree: a leaf
carries the decoded value (of the destination's kind when compatible), an
object carries key/value pairs. -/
inductive JVal where
  | leaf (v : Value)
  | obj (kvs : JProps)
  deriving DecidableEq

inductive JProps where
  | nil
  | cons (key : String) (v : JVal) (rest : JProps)
  deriving DecidableEq

end

def JProps.find? : JProps → String → Option JVal
  | .nil, _ => none
  | .cons k v rest, key => if k = key then some v else rest.find? key

/-- The JSON key that `encoding/json` matches against a struct field: the
name part of the `json` tag when present (`"-"` means never matched, an
empty name falls back to the Go field name); without a tag the field
name.  Go's case-insensitive fallback match is not modelled (all claims
use exact names). -/
def jsonKeyOf (nm : String) (tags : List (String × String)) : Option String :=
  match tagLookup tags "json" with
  | none => some nm
  | some t =>
    if t = "-" then none
    else
      let n := (goSplitComma t).headD ""
      if n = "" then some nm else some n

/-- Same non-struct kind (and width), the compatibility `json.Unmarshal`
needs to store a decoded leaf. -/
def kindMatches : Value → Value → Bool
  | .str _, .str _ => true
  | .intv w _, .intv w' _ => w = w'
  | .duration _, .duration _ => true
  | .level _, .level _ => true
  | .uintv w _, .uintv w' _ => w = w'
  | .floatv a _, .floatv b _ => a = b
  | .boolv _, .boolv _ => true
  | .strSlice _, .strSlice _ => true
  | _, _ => false

mutual

/-- `json.Unmarshal` of a well-formed document into a target value:
field-wise overlay.  A type mismatch records an error but decoding
continues (`encoding/json`'s `saveError`); fields absent from the object
keep their current value; unexported fields are never set. -/
def applyJVal : Value → JVal → Value × Option String
  | .struct fs, .obj kvs =>
    let r := applyJObj kvs fs
    (.struct r.1, r.2)
  | .struct fs, .leaf _ =>
    (.struct fs, some "json: cannot unmarshal non-object value into struct field")
  | v, .obj _ => (v, some "json: cannot unmarshal object into non-struct field")
  | v, .leaf lv =>
    if kindMatches v lv then (lv, none)
    else (v, some "json: cannot unmarshal value of mismatched type")

/-- The per-field decoding step: an exported field whose JSON key is
present in the object gets the (recursively decoded) document value,
every other field keeps its current value. -/
def jFieldStep (kvs : JProps) : Field → Field × Option String
  | .mk nm ex tags v =>
    if ex = false then (.mk nm ex tags v, none)
    else
      match jsonKeyOf nm tags with
      | none => (.mk nm ex tags v, none)
      | some key =>
        match kvs.find? key with
        | none => (.mk nm ex tags v, none)
        | some jv =>
          let r := applyJVal v jv
          (.mk nm ex tags r.1, r.2)

def applyJObj (kvs : JProps) : Fields → Fields × Option String
  | .nil => (.nil, none)
  | .cons f fs =>
    let r := jFieldStep kvs f
    let rs := applyJObj kvs fs
    (.cons r.1 rs.1, r.2 <|> rs.2)

end

/-! ## Process environment state, `godotenv` and the ancestor search
(`loadEnvFromAncestors`, lines 262–299) -/

/-- The process environment as a set of bindings (`os.Environ`); a key
bound to `""` is *set* (it blocks `godotenv`) though `os.Getenv` cannot
distinguish it from unset. -/
abbrev EnvSt := List (String × String)

def envLookup (e : EnvSt) (k : String) : Option String :=
  (List.find? (fun p => p.1 = k) e).map (·.2)

/-- `os.Setenv`: replace the binding if present, else append it. -/
def envSet : EnvSt → String → String → EnvSt
  | [], k, v => [(k, v)]
  | (k', v') :: rest, k, v =>
    if k' = k then (k, v) :: rest else (k', v') :: envSet rest k v

/-- `os.Getenv` over an environment state. -/
def getenv (e : EnvSt) : GoEnv := fun k => (envLookup e k).getD ""

/-- `godotenv`'s parse of a dotenv file into a map: a later line for the
same key overrides an earlier one. -/
def dotenvMap (kvs : List (String × String)) : EnvSt :=
  kvs.foldl (fun m p => envSet m p.1 p.2) []

/-- `godotenv.Load` (non-overloading): set exactly those parsed keys that
are not already present in the environment. -/
def dotenvLoad (e : EnvSt) (kvs : List (String × String)) : EnvSt :=
  (dotenvMap kvs).foldl
    (fun acc p => if (envLookup acc p.1).isSome then acc else envSet acc p.1 p.2) e

/-- One directory of the ancestor walk: for each file name present
(`os.Stat` succeeds), either its parsed key/value lines, or `none` when
`godotenv.Load` fails on it (the source silently skips that case). -/
abbrev DirFiles := List (String × Option (List (String × String)))

def dirFind (d : DirFiles) (fn : String) : Option (Option (List (String × String))) :=
  (List.find? (fun p => p.1 = fn) d).map (·.2)

/-- The inner loop of lines 275–284: try each candidate file name in the
given directory, loading those that exist and parse. -/
def loadDir (files : List String) (d : DirFiles) (e : EnvSt) : EnvSt :=
  files.foldl
    (fun acc fn =>
      match dirFind d fn with
      | some (some kvs) => dotenvLoad acc kvs
      | _ => acc) e

/-- The directory walk of lines 273–292: the working directory first,
then each parent, ending at the filesystem root. -/
def loadAncestorDirs (files : List String) (dirs : List DirFiles) (e : EnvSt) : EnvSt :=
  dirs.foldl (fun acc d => loadDir files d acc) e

/-- `loadEnvFromAncestors` (lines 262–299): fails only when `os.Getwd`
fails; finding no file is not an error. -/
def loadEnvFromAncestors (cwd : Except String (List DirFiles)) (files : List String)
    (e : EnvSt) : Except String EnvSt :=
  match cwd with
  | .error m => .error m
  | .ok dirs => .ok (loadAncestorDirs files dirs e)

/-! ## `Builder` and `Build` (lines 20–127) -/

mutual

/-- The zero `Value` of the same (Go) type: `var config T` for a value
type. -/
def Value.zeroOf : Value → Value
  | .str _ => .str ""
  | .intv w _ => .intv w 0
  | .duration _ => .duration 0
  | .level _ => .level 0
  | .uintv w _ => .uintv w 0
  | .floatv b _ => .floatv b (.num 0)
  | .boolv _ => .boolv false
  | .strSlice _ => .strSlice []
  | .struct fs => .struct (Fields.zeroOf fs)

def Fields.zeroOf : Fields → Fields
  | .nil => .nil
  | .cons (.mk nm ex tags v) fs => .cons (.mk nm ex tags (Value.zeroOf v)) (Fields.zeroOf fs)

end

/-- The type parameter `T` of `Builder[T]`: a plain struct value or a
pointer (possibly nil) to one. -/
inductive Conf where
  | val (v : Value)
  | ptr (p : Option Value)
  deriving DecidableEq

/-- The zero instance of the type of the given configuration (`var
config T`, line 67): the zero-filled struct for a value type, the nil
pointer for a pointer type. -/
def Conf.zeroOf : Conf → Conf
  | .val v => .val v.zeroOf
  | .ptr _ => .ptr none

/-- `Builder[T]` (lines 20–26): the stored default, environment-variable
prefix, tag key, candidate `.env` file names, and optional JSON file
path (`Option` models the `*string`). -/
structure GoBuilder where
  config : Conf
  envPrefix : String
  envTag : String
  envFiles : List String
  filepath : Option String
  deriving DecidableEq

/-- `New` (lines 29–39). -/
def New (defaultConf : Conf) : GoBuilder :=
  { config := defaultConf, envPrefix := "", envTag := "env", envFiles := [], filepath := none }

/-- `Builder.EnvPrefix` (line 42). -/
def GoBuilder.EnvPrefix (b : GoBuilder) (p : String) : GoBuilder := { b with envPrefix := p }

/-- `Builder.EnvTag` (line 48). -/
def GoBuilder.EnvTag (b : GoBuilder) (t : String) : GoBuilder := { b with envTag := t }

/-- `Builder.EnvFiles` (line 54). -/
def GoBuilder.EnvFiles (b : GoBuilder) (fs : List String) : GoBuilder := { b with envFiles := fs }

/-- `Builder.File` (line 60). -/
def GoBuilder.File (b : GoBuilder) (fp : Option String) : GoBuilder := { b with filepath := fp }

/-- A JSON document as `json.Unmarshal` sees it: syntactically malformed
(the up-front `checkValid` fails, nothing is applied) or well-formed. -/
inductive JsonDoc where
  | malformed (m : String)
  | wellFormed (j : JVal)

/-- `os.ReadFile`: unreadable, or content (already split into the
malformed/well-formed cases above). -/
inductive ReadResult where
  | readErr (m : String)
  | okDoc (d : JsonDoc)

/-- Everything outside the builder that `Build` consults: the file
system, `os.Getwd` plus the ancestor-directory chain, the prior process
environment, and the external declarative validator (opaque: any function
from the merged tree to an optional violation message). -/
structure World where
  readFile : String → ReadResult
  cwd : Except String (List DirFiles)
  env0 : EnvSt
  validate : Value → Option String

/-- The pipeline stages of `Build`, recorded as each is entered (used to
state that a failed nil-source check runs nothing else). -/
inductive BStep where
  | cloneStep | fileStep | envFilesStep | envOverlayStep | validateStep
  deriving DecidableEq, Repr

/-- The observable outcome of one `Build` call: the returned
configuration and error, the process environment afterwards (ancestor
`.env` loading is a process-wide side effect), the builder afterwards
(the source never writes to `b`), and the stages entered. -/
structure BuildOut where
  conf : Conf
  err : Option String
  envAfter : EnvSt
  builderAfter : GoBuilder
  steps : List BStep

def wrapConf (isPtr : Bool) (v : Value) : Conf :=
  if isPtr then .ptr (some v) else .val v

/-- Lines 98–108: overlay the JSON file onto the cloned target when a
non-empty path was configured. -/
def fileStage (t0 : Value) (b : GoBuilder) (w : World) : Value × Option String :=
  match b.filepath with
  | some fp =>
    if fp = "" then (t0, none)
    else
      match w.readFile fp with
      | .readErr m => (t0, some ("failed to read config file: " ++ m))
      | .okDoc (.malformed m) => (t0, some ("failed to parse config file: " ++ m))
      | .okDoc (.wellFormed j) =>
        let r := applyJVal t0 j
        match r.2 with
        | some m => (r.1, some ("failed to parse config file: " ++ m))
        | none => (r.1, none)
  | none => (t0, none)

/-- Lines 75–126 of `Build`, after the nil-source check: allocate, clone
the stored default (`copier.Copy`; tracked here at field-value
granularity — see `GoField` for the slice backing-array sharing its
default mode leaves between clone and default), overlay the JSON file if
configured, load ancestor `.env` files, overlay environment variables,
validate.  Every failure returns the target in its state at the failure
point (Go returns `config`, which aliases the mutated target — the value
itself for a value type, a non-nil pointer to it for a pointer type). -/
def buildFrom (isPtr : Bool) (d : Value) (b : GoBuilder) (w : World) : BuildOut :=
  let t0 := d
  let fileRes : Value × Option String := fileStage t0 b w
  match fileRes.2 with
  | some m =>
    { conf := wrapConf isPtr fileRes.1, err := some m, envAfter := w.env0,
      builderAfter := b, steps := [.cloneStep, .fileStep] }
  | none =>
    let t1 := fileRes.1
    match loadEnvFromAncestors w.cwd b.envFiles w.env0 with
    | .error m =>
      { conf := wrapConf isPtr t1,
        err := some ("failed to load environment variables: " ++ m),
        envAfter := w.env0, builderAfter := b,
        steps := [.cloneStep, .fileStep, .envFilesStep] }
    | .ok env1 =>
      let r := loadEnvToStruct (getenv env1) b.envPrefix b.envTag "" t1
      match r.2 with
      | some m =>
        { conf := wrapConf isPtr r.1,
          err := some ("failed to override configuration from environment: " ++ m),
          envAfter := env1, builderAfter := b,
          steps := [.cloneStep, .fileStep, .envFilesStep, .envOverlayStep] }
      | none =>
        match w.validate r.1 with
        | some m =>
          { conf := wrapConf isPtr r.1, err := some ("invalid configuration: " ++ m),
            envAfter := env1, builderAfter := b,
            steps := [.cloneStep, .fileStep, .envFilesStep, .envOverlayStep, .validateStep] }
        | none =>
          { conf := wrapConf isPtr r.1, err := none, envAfter := env1, builderAfter := b,
            steps := [.cloneStep, .fileStep, .envFilesStep, .envOverlayStep, .validateStep] }

/-- `Builder.Build` (lines 66–127).  The nil-source check of lines 69–73
fires only for a pointer-typed default holding nil and returns the zero
`config` of line 67 with nothing else run. -/
def Build (b : GoBuilder) (w : World) : BuildOut :=
  match b.config with
  | .ptr none =>
    { conf := .ptr none,
      err := some "cannot load environment variables into nil pointer",
      envAfter := w.env0, builderAfter := b, steps := [] }
  | .ptr (some d) => buildFrom true d b w
  | .val d => buildFrom false d b w

/-! ## Derived notions used to state the claims: field paths, computed
environment keys, reachability, JSON-supplied values, the coercion
specification. -/

/-- Is this value a struct (a node the resolver recurses into)? -/
def isStructV : Value → Bool
  | .struct _ => true
  | _ => false

/-- The struct value held by a configuration, if any (dereferencing the
pointer for pointer types). -/
def Conf.inner : Conf → Option Value
  | .val v => some v
  | .ptr p => p

/-- The field at an index path: `i` selects a field of `fs`, each entry
of `p` descends into the selected field's struct value. -/
def Fields.atPath (fs : Fields) (i : Nat) (p : List Nat) : Option Field :=
  match fs.get? i, p with
  | some f, [] => some f
  | some f, j :: q =>
    match f.value with
    | .struct gs => gs.atPath j q
    | _ => none
  | none, _ => none

/-- Is every field on the path exported (fields the reflective walk does
not skip)? -/
def Fields.exportedChain (fs : Fields) (i : Nat) (p : List Nat) : Bool :=
  match fs.get? i, p with
  | some f, [] => f.exported
  | some f, j :: q =>
    f.exported &&
      (match f.value with
       | .struct gs => gs.exportedChain j q
       | _ => false)
  | none, _ => false

/-- The accumulated parent path at the field addressed by `(i, p)`,
starting from `pp`: intermediate struct fields contribute their own tag
segment per `extendPath`. -/
def Fields.ppAt (fs : Fields) (tag pp : String) (i : Nat) (p : List Nat) : Option String :=
  match fs.get? i, p with
  | some _, [] => some pp
  | some f, j :: q =>
    match f.value with
    | .struct gs => gs.ppAt tag (extendPath pp (tagLookup f.tags tag)) j q
    | _ => none
  | none, _ => none

/-- The full (un-prefixed) environment key of the leaf at `(i, p)`: the
accumulated parent path joined with the leaf's non-empty tag. -/
def Fields.keyAt (fs : Fields) (tag pp : String) (i : Nat) (p : List Nat) : Option String :=
  match fs.ppAt tag pp i p, fs.atPath i p with
  | some pp', some f =>
    match tagLookup f.tags tag with
    | some t => if t = "" then none else some (joinPath pp' t)
    | none => none
  | _, _ => none

/-- The document value a well-formed JSON object supplies for the field
at `(i, p)`: every ancestor must be an exported field whose JSON key maps
to a sub-object, and the leaf's JSON key must be present. -/
def Fields.jsonSuppliedAt (fs : Fields) (kvs : JProps) (i : Nat) (p : List Nat) :
    Option JVal :=
  match fs.get? i, p with
  | some f, [] =>
    if f.exported then
      match jsonKeyOf f.name f.tags with
      | some key => kvs.find? key
      | none => none
    else none
  | some f, j :: q =>
    if f.exported then
      match jsonKeyOf f.name f.tags with
      | some key =>
        match kvs.find? key with
        | some (.obj kvs') =>
          match f.value with
          | .struct gs => gs.jsonSuppliedAt kvs' j q
          | _ => none
        | _ => none
      | none => none
    else none
  | none, _ => none

/-- The JSON object the file stage decodes, when the build has a
non-empty configured path, the file is readable, and its content is a
well-formed object (under a successful build these are the only ways a
configured file can behave). -/
def fileProps (b : GoBuilder) (w : World) : Option JProps :=
  match b.filepath with
  | some fp =>
    if fp = "" then none
    else
      match w.readFile fp with
      | .okDoc (.wellFormed (.obj kvs)) => some kvs
      | _ => none
  | none => none

/-- The successful-coercion function of the type switch: the value stored
for a non-empty raw environment value, by destination kind, or `none` on
a parse failure.  (`setFieldFromEnv_eq_coerce` proves the switch equal to
this plus `coerceErrMsg`.) -/
def coerceOk (old : Value) (s : String) : Option Value :=
  match old with
  | .str _ => some (.str s)
  | .duration _ => (parseDuration s).toOption.map Value.duration
  | .level _ => (parseLevel (asciiUpper s)).map Value.level
  | .intv w _ => (parseInt64 s).toOption.map (fun v => .intv w (truncInt w v))
  | .uintv w _ => (parseUint64 s).toOption.map (fun v => .uintv w (truncUint w v))
  | .floatv is32 _ => (parseFloat s).toOption.map (.floatv is32)
  | .boolv _ => (parseBool s).toOption.map Value.boolv
  | .strSlice _ => some (.strSlice (splitTrim s))
  | .struct _ => none

/-- The coercion-failure message of the type switch, given the
destination kind, the field's tag value and the raw value. -/
def coerceErrMsg (old : Value) (envVar s : String) : Option String :=
  match old with
  | .duration _ =>
    match parseDuration s with
    | .error m => some ("invalid duration value for " ++ envVar ++ ": " ++ m)
    | .ok _ => none
  | .level _ =>
    match parseLevel (asciiUpper s) with
    | none => some ("invalid slog level value for " ++ envVar ++ ": " ++ s)
    | some _ => none
  | .intv _ _ =>
    match parseInt64 s with
    | .error m => some ("invalid integer value for " ++ envVar ++ ": " ++ m)
    | .ok _ => none
  | .uintv _ _ =>
    match parseUint64 s with
    | .error m => some ("invalid unsigned integer value for " ++ envVar ++ ": " ++ m)
    | .ok _ => none
  | .floatv _ _ =>
    match parseFloat s with
    | .error m => some ("invalid float value for " ++ envVar ++ ": " ++ m)
    | .ok _ => none
  | .boolv _ =>
    match parseBool s with
    | .error m => some ("invalid boolean value for " ++ envVar ++ ": " ++ m)
    | .ok _ => none
  | _ => none

/-- First definition of key `k` among the loadable candidate files of one
directory, in the order the inner loop tries them. -/
def dirDef (files : List String) (d : DirFiles) (k : String) : Option String :=
  match files with
  | [] => none
  | fn :: rest =>
    (match dirFind d fn with
     | some (some kvs) => envLookup (dotenvMap kvs) k
     | _ => none) <|> dirDef rest d k

/-- First definition of key `k` along the directory walk (working
directory first, root last). -/
def firstDef (files : List String) (dirs : List DirFiles) (k : String) : Option String :=
  match dirs with
  | [] => none
  | d :: rest => dirDef files d k <|> firstDef files rest k

/-- A heap of slice backing arrays: id `a` names the array `heapGet h a`.
Go slice values are headers naming such an array; writing an element goes
through the heap and is seen by every header naming the same array. -/
abbrev Heap := List (List String)

/-- The backing array named by id `a` (empty if the id is dangling). -/
def heapGet (h : Heap) (a : Nat) : List String := (h.get? a).getD []

/-- Is the first list a prefix of the second? -/
def listPrefixOf : List Char → List Char → Bool
  | [], _ => true
  | _ :: _, [] => false
  | a :: as, b :: bs => a = b && listPrefixOf as bs

/-- Does `hay` contain `needle` as a contiguous run? -/
def listContains : List Char → List Char → Bool
  | [], needle => needle.isEmpty
  | c :: rest, needle => listPrefixOf needle (c :: rest) || listContains rest needle

/-- Does the string contain the given substring? -/
def strContains (hay needle : String) : Bool := listContains hay.toList needle.toList

/-- The default field list of the C2 witness scenario. -/
def c2wFs0 : Fields :=
  .cons (.mk "AppName" true [("json", "app_name"), ("env", "APP_NAME")] (.str "default-app"))
    (.cons (.mk "Port" true [("json", "port"), ("env", "PORT")] (.intv .iword 8080))
      (.cons (.mk "Environment" true [("json", "environment"), ("env", "ENVIRONMENT")]
        (.str "development")) .nil))

/-- The JSON object of the C2 witness scenario: supplies `app_name` and
`port`. -/
def c2wProps : JProps :=
  .cons "app_name" (.leaf (.str "file-app"))
    (.cons "port" (.leaf (.intv .iword 7070)) .nil)

/-- The builder of the C2 witness scenario. -/
def c2wB : GoBuilder :=
  ((New (.val (.struct c2wFs0))).EnvPrefix "TEST_").File (some "config.json")

/-- The world of the C2 witness scenario: the configured file parses to
`c2wProps`, no `.env` files, and the process environment sets only
`TEST_PORT=9090`. -/
def c2wW : World :=
  { readFile := fun q =>
      if q = "config.json" then .okDoc (.wellFormed (.obj c2wProps)) else .readErr "no"
    cwd := .ok []
    env0 := [("TEST_PORT", "9090")]
    validate := fun _ => none }

/-! ## Lemmas: basic accessors -/

@[simp] theorem Field.name_mk (nm : String) (ex : Bool) (ts : List (String × String))
    (v : Value) : (Field.mk nm ex ts v).name = nm := rfl

@[simp] theorem Field.exported_mk (nm : String) (ex : Bool) (ts : List (String × String))
    (v : Value) : (Field.mk nm ex ts v).exported = ex := rfl

@[simp] theorem Field.tags_mk (nm : String) (ex : Bool) (ts : List (String × String))
    (v : Value) : (Field.mk nm ex ts v).tags = ts := rfl

@[simp] theorem Field.value_mk (nm : String) (ex : Bool) (ts : List (String × String))
    (v : Value) : (Field.mk nm ex ts v).value = v := rfl

@[simp] theorem Field.withValue_mk (nm : String) (ex : Bool) (ts : List (String × String))
    (v v' : Value) : (Field.mk nm ex ts v).withValue v' = .mk nm ex ts v' := rfl

@[simp] theorem Field.lookupTag_mk (nm : String) (ex : Bool) (ts : List (String × String))
    (v : Value) (key : String) : (Field.mk nm ex ts v).lookupTag key = tagLookup ts key := rfl

theorem Field.eta (f : Field) : Field.mk f.name f.exported f.tags f.value = f := by
  cases f; rfl

@[simp] theorem Fields.get?_nil (i : Nat) : Fields.nil.get? i = none := by
  cases i <;> rfl

@[simp] theorem Fields.get?_cons_zero (f : Field) (fs : Fields) :
    (Fields.cons f fs).get? 0 = some f := rfl

@[simp] theorem Fields.get?_cons_succ (f : Field) (fs : Fields) (i : Nat) :
    (Fields.cons f fs).get? (i + 1) = fs.get? i := rfl

/-! ## Lemmas: the environment overlay, field by field -/

/-- The coercion switch, re-expressed through the specification functions
`coerceOk` / `coerceErrMsg`: the new value on success, the untouched
field plus the kind's error message on failure. -/
theorem setFieldFromEnv_eq_coerce (f : Field) (envVar s : String) :
    setFieldFromEnv f envVar s =
      ((match coerceOk f.value s with
        | some cv => f.withValue cv
        | none => f),
       coerceErrMsg f.value envVar s) := by
  cases f with
  | mk nm ex ts v =>
    cases v <;> simp only [setFieldFromEnv, coerceOk, coerceErrMsg, Field.value_mk]
    case duration => cases parseDuration s <;> simp [Except.toOption]
    case level => cases parseLevel (asciiUpper s) <;> simp
    case intv => cases parseInt64 s <;> simp [Except.toOption]
    case uintv => cases parseUint64 s <;> simp [Except.toOption]
    case floatv => cases parseFloat s <;> simp [Except.toOption]
    case boolv => cases parseBool s <;> simp [Except.toOption]

/-- An unexported field is skipped entirely. -/
theorem loadField_unexported (env : GoEnv) (pre tag pp : String) (f : Field)
    (h : f.exported = false) : loadField env pre tag pp f = (f, none) := by
  cases f with
  | mk nm ex ts v =>
    simp only [Field.exported_mk] at h
    subst h
    cases v <;> simp [loadField]

/-- `leafStep` on a struct-valued field never changes it (the type switch
has no struct case). -/
theorem leafStep_struct (env : GoEnv) (pre tag pp : String) (f : Field)
    (h : isStructV f.value = true) : leafStep env pre tag pp f = (f, none) := by
  cases f with
  | mk nm ex ts v =>
    cases v
    case struct gs =>
      unfold leafStep
      cases htag : tagLookup ts tag with
      | none => simp [Field.tags_mk, htag]
      | some t =>
        simp only [Field.tags_mk, htag]
        by_cases ht : t = "" <;> simp [ht, setFieldFromEnv]
    all_goals simp [isStructV] at h

/-- An exported non-struct field is processed exactly by `leafStep`. -/
theorem loadField_nonstruct (env : GoEnv) (pre tag pp : String) (f : Field)
    (hex : f.exported = true) (hns : isStructV f.value = false) :
    loadField env pre tag pp f = leafStep env pre tag pp f := by
  cases f with
  | mk nm ex ts v =>
    simp only [Field.exported_mk] at hex
    subst hex
    cases v
    case struct gs => simp [isStructV] at hns
    all_goals simp [loadField]

/-- An exported struct-valued field: recurse with the extended path; an
inner error is wrapped with the field name and stops there, otherwise the
(no-op) `leafStep` runs on the updated field. -/
theorem loadField_struct (env : GoEnv) (pre tag pp : String) (nm : String)
    (ts : List (String × String)) (gs : Fields) :
    loadField env pre tag pp (.mk nm true ts (.struct gs)) =
      (let r := loadFields env pre tag (extendPath pp (tagLookup ts tag)) gs
       match r.2 with
       | some m =>
         (.mk nm true ts (.struct r.1),
          some ("error loading sub config field " ++ nm ++ ": " ++ m))
       | none => (.mk nm true ts (.struct r.1), none)) := by
  simp only [loadField]
  cases h : (loadFields env pre tag (extendPath pp (tagLookup ts tag)) gs).2 with
  | some m => simp [h]
  | none =>
    simp only [h]
    rw [leafStep_struct]
    · rfl
    · simp [isStructV]

/-- Structural induction over `Fields` alone (the `induction` tactic
cannot use the multi-motive recursor of the mutual block). -/
theorem Fields.inductOn {motive : Fields → Prop} (fs : Fields) (nil : motive .nil)
    (cons : ∀ f rest, motive rest → motive (.cons f rest)) : motive fs :=
  match fs with
  | .nil => nil
  | .cons f rest => cons f rest (Fields.inductOn rest nil cons)

/-- When the whole field loop succeeds, fields are processed
independently: the `i`-th output field is the per-field result on the
`i`-th input field. -/
theorem loadFields_none_get (env : GoEnv) (pre tag pp : String) :
    ∀ (fs : Fields) (i : Nat),
      (loadFields env pre tag pp fs).2 = none →
      (loadFields env pre tag pp fs).1.get? i =
        (fs.get? i).map (fun f => (loadField env pre tag pp f).1) := by
  intro fs
  induction fs using Fields.inductOn with
  | nil => intro i h; simp [loadFields]
  | cons f fs ih =>
    intro i h
    cases hr : (loadField env pre tag pp f).2 with
    | some m => simp [loadFields, hr] at h
    | none =>
      cases hs : (loadFields env pre tag pp fs).2 with
      | some m => simp [loadFields, hr, hs] at h
      | none =>
        cases i with
        | zero => simp [loadFields, hr]
        | succ i => simp [loadFields, hr, ih i hs]

/-- When the whole field loop succeeds, each individual field's
processing succeeded. -/
theorem loadFields_none_field (env : GoEnv) (pre tag pp : String) :
    ∀ (fs : Fields) (i : Nat) (f : Field),
      (loadFields env pre tag pp fs).2 = none →
      fs.get? i = some f →
      (loadField env pre tag pp f).2 = none := by
  intro fs
  induction fs using Fields.inductOn with
  | nil => intro i f h hg; simp at hg
  | cons f0 fs ih =>
    intro i f h hg
    cases hr : (loadField env pre tag pp f0).2 with
    | some m => simp [loadFields, hr] at h
    | none =>
      cases hs : (loadFields env pre tag pp fs).2 with
      | some m => simp [loadFields, hr, hs] at h
      | none =>
        cases i with
        | zero => simp at hg; subst hg; exact hr
        | succ i => simp at hg; exact ih i f hs hg

/-- The heart of the tag-path resolver: on a successful overlay, the
field reached through any exported chain of struct fields ending at a
non-struct leaf is transformed exactly by `leafStep` at the accumulated
parent path (and that leaf step itself succeeded). -/
theorem loadFields_atPath (env : GoEnv) (pre tag : String) :
    ∀ (p : List Nat) (i : Nat) (pp : String) (fs : Fields) (f : Field),
      (loadFields env pre tag pp fs).2 = none →
      fs.atPath i p = some f →
      fs.exportedChain i p = true →
      isStructV f.value = false →
      ∃ pp', fs.ppAt tag pp i p = some pp' ∧
        (loadFields env pre tag pp fs).1.atPath i p =
          some (leafStep env pre tag pp' f).1 ∧
        (leafStep env pre tag pp' f).2 = none := by
  intro p
  induction p with
  | nil =>
    intro i pp fs f hnone hat hexp hns
    cases hg : fs.get? i with
    | none => simp [Fields.atPath, hg] at hat
    | some f0 =>
      have hf0 : f0 = f := by simpa [Fields.atPath, hg] using hat
      subst hf0
      have hexp' : f0.exported = true := by simpa [Fields.exportedChain, hg] using hexp
      have h1 := loadFields_none_get env pre tag pp fs i hnone
      have h2 := loadFields_none_field env pre tag pp fs i f0 hnone hg
      refine ⟨pp, by simp [Fields.ppAt, hg], ?_, ?_⟩
      · simp [Fields.atPath, h1, hg, loadField_nonstruct env pre tag pp f0 hexp' hns]
      · rw [loadField_nonstruct env pre tag pp f0 hexp' hns] at h2
        exact h2
  | cons j q ih =>
    intro i pp fs f hnone hat hexp hns
    cases hg : fs.get? i with
    | none => simp [Fields.atPath, hg] at hat
    | some f0 =>
      cases f0 with
      | mk nm ex ts v =>
        cases v
        case struct gs =>
          have hat' : gs.atPath j q = some f := by
            simpa [Fields.atPath, hg] using hat
          have hexp2 := hexp
          simp [Fields.exportedChain, hg] at hexp2
          obtain ⟨hex0, hchain⟩ := hexp2
          subst hex0
          have h1 := loadFields_none_get env pre tag pp fs i hnone
          have h2 := loadFields_none_field env pre tag pp fs i _ hnone hg
          rw [loadField_struct] at h2
          cases hr : (loadFields env pre tag (extendPath pp (tagLookup ts tag)) gs).2 with
          | some m => simp [hr] at h2
          | none =>
            obtain ⟨pp'', hpp, hat2, hleaf⟩ :=
              ih j (extendPath pp (tagLookup ts tag)) gs f hr hat' hchain hns
            refine ⟨pp'', ?_, ?_, hleaf⟩
            · simp [Fields.ppAt, hg, hpp]
            · simp only [hg, Option.map_some'] at h1
              rw [loadField_struct] at h1
              simp only [hr] at h1
              simp [Fields.atPath, h1, hat2]
        all_goals simp [Fields.atPath, hg] at hat

/-! ## Lemmas: the JSON overlay, field by field -/

/-- `applyJObj` is a per-field map (decoding never aborts). -/
theorem applyJObj_get (kvs : JProps) :
    ∀ (fs : Fields) (i : Nat),
      (applyJObj kvs fs).1.get? i = (fs.get? i).map (fun f => (jFieldStep kvs f).1) := by
  intro fs
  induction fs using Fields.inductOn with
  | nil => intro i; simp [applyJObj]
  | cons f fs ih =>
    intro i
    cases i with
    | zero => simp [applyJObj]
    | succ i => simp [applyJObj, ih i]

/-- A fully successful decode means every field's step succeeded. -/
theorem applyJObj_none_field (kvs : JProps) :
    ∀ (fs : Fields) (i : Nat) (f : Field),
      (applyJObj kvs fs).2 = none → fs.get? i = some f → (jFieldStep kvs f).2 = none := by
  intro fs
  induction fs using Fields.inductOn with
  | nil => intro i f _ hg; simp at hg
  | cons f0 fs ih =>
    intro i f h hg
    cases hr : (jFieldStep kvs f0).2 with
    | some m => simp [applyJObj, hr, Option.orElse] at h
    | none =>
      cases hs : (applyJObj kvs fs).2 with
      | some m => simp [applyJObj, hr, hs, Option.orElse] at h
      | none =>
        cases i with
        | zero => simp at hg; subst hg; exact hr
        | succ i => simp at hg; exact ih i f hs hg

/-- The JSON overlay at a path ending in a non-struct field: the file
value when the document supplies a compatible leaf there, the old value
otherwise. -/
theorem applyJObj_atPath :
    ∀ (p : List Nat) (kvs : JProps) (i : Nat) (fs : Fields) (f : Field),
      fs.atPath i p = some f →
      isStructV f.value = false →
      (applyJObj kvs fs).1.atPath i p =
        some (match fs.jsonSuppliedAt kvs i p with
              | some (.leaf lv) => if kindMatches f.value lv then f.withValue lv else f
              | _ => f) := by
  intro p
  induction p with
  | nil =>
    intro kvs i fs f hat hns
    cases hg : fs.get? i with
    | none => simp [Fields.atPath, hg] at hat
    | some f0 =>
      have hf0 : f0 = f := by simpa [Fields.atPath, hg] using hat
      subst hf0
      have h1 := applyJObj_get kvs fs i
      cases f0 with
      | mk nm ex ts v =>
        cases ex with
        | false =>
          simp [Fields.atPath, Fields.jsonSuppliedAt, hg, h1, jFieldStep]
        | true =>
          cases hk : jsonKeyOf nm ts with
          | none => simp [Fields.atPath, Fields.jsonSuppliedAt, hg, h1, jFieldStep, hk]
          | some key =>
            cases hfind : kvs.find? key with
            | none => simp [Fields.atPath, Fields.jsonSuppliedAt, hg, h1, jFieldStep, hk, hfind]
            | some jv =>
              cases jv with
              | leaf lv =>
                cases v
                case struct gs => simp [isStructV] at hns
                all_goals
                  simp [Fields.atPath, Fields.jsonSuppliedAt, hg, h1, jFieldStep, hk, hfind,
                    applyJVal]
                all_goals split <;> simp_all
              | obj kvs2 =>
                cases v
                case struct gs => simp [isStructV] at hns
                all_goals
                  simp [Fields.atPath, Fields.jsonSuppliedAt, hg, h1, jFieldStep, hk, hfind,
                    applyJVal]
  | cons j q ih =>
    intro kvs i fs f hat hns
    cases hg : fs.get? i with
    | none => simp [Fields.atPath, hg] at hat
    | some f0 =>
      cases f0 with
      | mk nm ex ts v =>
        cases v
        case struct gs =>
          have hat' : gs.atPath j q = some f := by simpa [Fields.atPath, hg] using hat
          have h1 := applyJObj_get kvs fs i
          cases ex with
          | false =>
            simp [Fields.atPath, Fields.jsonSuppliedAt, hg, h1, jFieldStep, hat']
          | true =>
            cases hk : jsonKeyOf nm ts with
            | none =>
              simp [Fields.atPath, Fields.jsonSuppliedAt, hg, h1, jFieldStep, hk, hat']
            | some key =>
              cases hfind : kvs.find? key with
              | none =>
                simp [Fields.atPath, Fields.jsonSuppliedAt, hg, h1, jFieldStep, hk, hfind, hat']
              | some jv =>
                cases jv with
                | leaf lv =>
                  simp [Fields.atPath, Fields.jsonSuppliedAt, hg, h1, jFieldStep, hk, hfind,
                    applyJVal, hat']
                | obj kvs2 =>
                  simp [Fields.atPath, Fields.jsonSuppliedAt, hg, h1, jFieldStep, hk, hfind,
                    applyJVal, ih kvs2 j gs f hat' hns]
        all_goals simp [Fields.atPath, hg] at hat

/-- Under a fully successful decode, a leaf the document supplies always
kind-matches its destination (a mismatch would have produced an error). -/
theorem applyJObj_supplied_matches :
    ∀ (p : List Nat) (kvs : JProps) (i : Nat) (fs : Fields) (f : Field) (lv : Value),
      (applyJObj kvs fs).2 = none →
      fs.atPath i p = some f →
      isStructV f.value = false →
      fs.jsonSuppliedAt kvs i p = some (.leaf lv) →
      kindMatches f.value lv = true := by
  intro p
  induction p with
  | nil =>
    intro kvs i fs f lv hnone hat hns hsup
    cases hg : fs.get? i with
    | none => simp [Fields.atPath, hg] at hat
    | some f0 =>
      have hf0 : f0 = f := by simpa [Fields.atPath, hg] using hat
      subst hf0
      have hstep := applyJObj_none_field kvs fs i f0 hnone hg
      cases f0 with
      | mk nm ex ts v =>
        cases ex with
        | false => simp [Fields.jsonSuppliedAt, hg] at hsup
        | true =>
          cases hk : jsonKeyOf nm ts with
          | none => simp [Fields.jsonSuppliedAt, hg, hk] at hsup
          | some key =>
            cases hfind : kvs.find? key with
            | none => simp [Fields.jsonSuppliedAt, hg, hk, hfind] at hsup
            | some jv =>
              have hjv : jv = .leaf lv := by
                simpa [Fields.jsonSuppliedAt, hg, hk, hfind] using hsup
              subst hjv
              simp only [jFieldStep, hk, hfind] at hstep
              cases v
              case struct gs => simp [isStructV] at hns
              all_goals
                simp only [applyJVal] at hstep
              all_goals
                by_contra hc
                simp only [Bool.not_eq_true, Field.value_mk] at hc
                simp [hc] at hstep
  | cons j q ih =>
    intro kvs i fs f lv hnone hat hns hsup
    cases hg : fs.get? i with
    | none => simp [Fields.atPath, hg] at hat
    | some f0 =>
      cases f0 with
      | mk nm ex ts v =>
        cases v
        case struct gs =>
          have hat' : gs.atPath j q = some f := by simpa [Fields.atPath, hg] using hat
          have hstep := applyJObj_none_field kvs fs i _ hnone hg
          cases ex with
          | false => simp [Fields.jsonSuppliedAt, hg] at hsup
          | true =>
            cases hk : jsonKeyOf nm ts with
            | none => simp [Fields.jsonSuppliedAt, hg, hk] at hsup
            | some key =>
              cases hfind : kvs.find? key with
              | none => simp [Fields.jsonSuppliedAt, hg, hk, hfind] at hsup
              | some jv =>
                cases jv with
                | leaf lv' => simp [Fields.jsonSuppliedAt, hg, hk, hfind] at hsup
                | obj kvs2 =>
                  have hsup' : gs.jsonSuppliedAt kvs2 j q = some (.leaf lv) := by
                    simpa [Fields.jsonSuppliedAt, hg, hk, hfind] using hsup
                  simp only [jFieldStep, hk, hfind, applyJVal] at hstep
                  exact ih kvs2 j gs f lv hstep hat' hns hsup'
        all_goals simp [Fields.atPath, hg] at hat

/-! ## Lemmas: the file stage -/

/-- A successful file stage on a struct target: either no JSON object was
decoded (no configured path, or an empty one) and the target is
untouched, or the configured well-formed object was decoded without
error. -/
theorem fileStage_none (fs0 : Fields) (b : GoBuilder) (w : World)
    (h : (fileStage (.struct fs0) b w).2 = none) :
    (fileProps b w = none ∧ (fileStage (.struct fs0) b w).1 = .struct fs0) ∨
    (∃ kvs, fileProps b w = some kvs ∧ (applyJObj kvs fs0).2 = none ∧
      (fileStage (.struct fs0) b w).1 = .struct (applyJObj kvs fs0).1) := by
  cases hfp : b.filepath with
  | none => left; simp [fileStage, fileProps, hfp]
  | some fp =>
    by_cases hemp : fp = ""
    · left; simp [fileStage, fileProps, hfp, hemp]
    · cases hrd : w.readFile fp with
      | readErr m => simp [fileStage, hfp, hemp, hrd] at h
      | okDoc doc =>
        cases doc with
        | malformed m => simp [fileStage, hfp, hemp, hrd] at h
        | wellFormed j =>
          cases j with
          | leaf lv => simp [fileStage, hfp, hemp, hrd, applyJVal] at h
          | obj kvs =>
            cases hj : (applyJObj kvs fs0).2 with
            | some m => simp [fileStage, hfp, hemp, hrd, applyJVal, hj] at h
            | none =>
              right
              exact ⟨kvs, by simp [fileProps, hfp, hemp, hrd],
                hj, by simp [fileStage, hfp, hemp, hrd, applyJVal, hj]⟩

/-! ## Lemmas: environment state, `godotenv` and the ancestor walk -/

theorem envLookup_envSet (k v : String) :
    ∀ (e : EnvSt) (k' : String),
      envLookup (envSet e k v) k' = if k' = k then some v else envLookup e k' := by
  intro e
  induction e with
  | nil =>
    intro k'
    by_cases h : k' = k
    · subst h; simp [envSet, envLookup]
    · have h' : k ≠ k' := fun hh => h hh.symm
      simp [envSet, envLookup, h, h']
  | cons p e ih =>
    intro k'
    obtain ⟨k0, v0⟩ := p
    by_cases h0 : k0 = k
    · subst h0
      by_cases h : k' = k0
      · subst h; simp [envSet, envLookup]
      · have h' : k0 ≠ k' := fun hh => h hh.symm
        simp [envSet, envLookup, h, h']
    · by_cases h : k' = k0
      · subst h
        have h2 : k' ≠ k := fun hh => h0 (hh ▸ rfl)
        simp [envSet, envLookup, h0, h2]
      · have h' : k0 ≠ k' := fun hh => h hh.symm
        have e1 : envSet ((k0, v0) :: e) k v = (k0, v0) :: envSet e k v := by
          simp [envSet, h0]
        have e2 : ∀ (rest : EnvSt), envLookup ((k0, v0) :: rest) k' = envLookup rest k' := by
          intro rest
          simp [envLookup, List.find?_cons, h']
        rw [e1, e2 (envSet e k v), e2 e]
        exact ih k'

theorem optOrElse_assoc {α : Type} (a b c : Option α) :
    ((a <|> b) <|> c) = (a <|> (b <|> c)) := by
  cases a <;> simp

/-- The skip-if-present fold of `godotenv.Load`: existing bindings win,
otherwise the first binding for the key in the folded list. -/
theorem dotenvFold_lookup (k : String) :
    ∀ (m : EnvSt) (e : EnvSt),
      envLookup
        (m.foldl (fun acc p => if (envLookup acc p.1).isSome then acc else envSet acc p.1 p.2) e)
        k =
      (envLookup e k <|> envLookup m k) := by
  intro m
  induction m with
  | nil => intro e; simp [envLookup]
  | cons p m ih =>
    intro e
    obtain ⟨k0, v0⟩ := p
    simp only [List.foldl_cons]
    have hconsEq : ∀ hk : ¬ k = k0, envLookup ((k0, v0) :: m) k = envLookup m k := by
      intro hk
      have h' : k0 ≠ k := fun hh => hk hh.symm
      simp [envLookup, List.find?_cons, h']
    have hconsHit : ∀ hk : k = k0, envLookup ((k0, v0) :: m) k = some v0 := by
      intro hk
      subst hk
      simp [envLookup, List.find?_cons]
    by_cases hpresent : (envLookup e k0).isSome
    · rw [if_pos hpresent, ih e]
      by_cases hk : k = k0
      · obtain ⟨x, hx⟩ := Option.isSome_iff_exists.mp (hk ▸ hpresent)
        rw [hconsHit hk, hx]
        simp
      · rw [hconsEq hk]
    · rw [if_neg hpresent, ih (envSet e k0 v0)]
      by_cases hk : k = k0
      · subst hk
        have hnone : envLookup e k = none := Option.not_isSome_iff_eq_none.mp hpresent
        rw [hconsHit rfl, hnone]
        rw [envLookup_envSet]
        simp
      · rw [hconsEq hk]
        rw [envLookup_envSet]
        rw [if_neg hk]

/-- `godotenv.Load`: lookup after loading one file — the prior
environment wins, otherwise the file's parsed map. -/
theorem dotenvLoad_lookup (e : EnvSt) (kvs : List (String × String)) (k : String) :
    envLookup (dotenvLoad e kvs) k = (envLookup e k <|> envLookup (dotenvMap kvs) k) :=
  dotenvFold_lookup k (dotenvMap kvs) e

/-- One directory of the walk: the prior environment wins, otherwise the
first loadable candidate file defining the key. -/
theorem loadDir_lookup (d : DirFiles) (k : String) :
    ∀ (files : List String) (e : EnvSt),
      envLookup (loadDir files d e) k = (envLookup e k <|> dirDef files d k) := by
  intro files
  induction files with
  | nil => intro e; simp [loadDir, dirDef]
  | cons fn files ih =>
    intro e
    cases hf : dirFind d fn with
    | none =>
      have step : loadDir (fn :: files) d e = loadDir files d e := by
        simp [loadDir, List.foldl_cons, hf]
      rw [step, ih e]
      simp [dirDef, hf]
    | some o =>
      cases o with
      | none =>
        have step : loadDir (fn :: files) d e = loadDir files d e := by
          simp [loadDir, List.foldl_cons, hf]
        rw [step, ih e]
        simp [dirDef, hf]
      | some kvs =>
        have step : loadDir (fn :: files) d e = loadDir files d (dotenvLoad e kvs) := by
          simp [loadDir, List.foldl_cons, hf]
        rw [step, ih (dotenvLoad e kvs), dotenvLoad_lookup, optOrElse_assoc]
        simp [dirDef, hf]

/-- The whole walk: the prior process environment wins, otherwise the
first definition in closest-directory-first order. -/
theorem loadAncestorDirs_lookup (files : List String) (k : String) :
    ∀ (dirs : List DirFiles) (e : EnvSt),
      envLookup (loadAncestorDirs files dirs e) k =
        (envLookup e k <|> firstDef files dirs k) := by
  intro dirs
  induction dirs with
  | nil => intro e; simp [loadAncestorDirs, firstDef]
  | cons d dirs ih =>
    intro e
    simp only [loadAncestorDirs, List.foldl_cons]
    rw [show envLookup (List.foldl (fun acc d => loadDir files d acc) (loadDir files d e) dirs) k =
          (envLookup (loadDir files d e) k <|> firstDef files dirs k) from ih (loadDir files d e)]
    rw [loadDir_lookup]
    rw [optOrElse_assoc]
    simp [firstDef]

/-! ## Lemmas: decomposing a successful `Build` -/

@[simp] theorem wrapConf_inner (isPtr : Bool) (v : Value) :
    (wrapConf isPtr v).inner = some v := by
  cases isPtr <;> simp [wrapConf, Conf.inner]

/-- A successful `buildFrom` decomposed into its stages. -/
theorem buildFrom_success (isPtr : Bool) (d : Value) (b : GoBuilder) (w : World)
    (hok : (buildFrom isPtr d b w).err = none) :
    ∃ dirs t1,
      w.cwd = .ok dirs ∧
      fileStage d b w = (t1, none) ∧
      (loadEnvToStruct (getenv (loadAncestorDirs b.envFiles dirs w.env0))
          b.envPrefix b.envTag "" t1).2 = none ∧
      w.validate (loadEnvToStruct (getenv (loadAncestorDirs b.envFiles dirs w.env0))
          b.envPrefix b.envTag "" t1).1 = none ∧
      (buildFrom isPtr d b w).conf =
        wrapConf isPtr (loadEnvToStruct (getenv (loadAncestorDirs b.envFiles dirs w.env0))
          b.envPrefix b.envTag "" t1).1 := by
  cases he1 : (fileStage d b w).2 with
  | some m => simp [buildFrom, he1] at hok
  | none =>
    cases hcwd : w.cwd with
    | error m => simp [buildFrom, he1, loadEnvFromAncestors, hcwd] at hok
    | ok dirs =>
      cases he2 : (loadEnvToStruct (getenv (loadAncestorDirs b.envFiles dirs w.env0))
          b.envPrefix b.envTag "" (fileStage d b w).1).2 with
      | some m =>
        simp [buildFrom, he1, loadEnvFromAncestors, hcwd, he2] at hok
      | none =>
        cases hval : w.validate (loadEnvToStruct (getenv (loadAncestorDirs b.envFiles dirs w.env0))
            b.envPrefix b.envTag "" (fileStage d b w).1).1 with
        | some m =>
          simp [buildFrom, he1, loadEnvFromAncestors, hcwd, he2, hval] at hok
        | none =>
          refine ⟨dirs, (fileStage d b w).1, rfl, ?_, he2, hval, ?_⟩
          · exact Prod.ext rfl he1
          · simp [buildFrom, he1, loadEnvFromAncestors, hcwd, he2, hval]

/-- A successful `Build` with a non-nil default decomposed into its
stages. -/
theorem build_success (b : GoBuilder) (w : World) (d : Value)
    (hconf : b.config.inner = some d)
    (hok : (Build b w).err = none) :
    ∃ dirs t1,
      w.cwd = .ok dirs ∧
      fileStage d b w = (t1, none) ∧
      (loadEnvToStruct (getenv (loadAncestorDirs b.envFiles dirs w.env0))
          b.envPrefix b.envTag "" t1).2 = none ∧
      w.validate (loadEnvToStruct (getenv (loadAncestorDirs b.envFiles dirs w.env0))
          b.envPrefix b.envTag "" t1).1 = none ∧
      (Build b w).conf.inner =
        some (loadEnvToStruct (getenv (loadAncestorDirs b.envFiles dirs w.env0))
          b.envPrefix b.envTag "" t1).1 := by
  cases hb : b.config with
  | val d0 =>
    have hd : d0 = d := by simpa [hb, Conf.inner] using hconf
    subst hd
    have hok' : (buildFrom false d0 b w).err = none := by
      simpa [Build, hb] using hok
    obtain ⟨dirs, t1, h1, h2, h3, h4, h5⟩ := buildFrom_success false d0 b w hok'
    exact ⟨dirs, t1, h1, h2, h3, h4, by simp [Build, hb, h5]⟩
  | ptr p =>
    cases p with
    | none => simp [Build, hb] at hok
    | some d0 =>
      have hd : d0 = d := by simpa [hb, Conf.inner] using hconf
      subst hd
      have hok' : (buildFrom true d0 b w).err = none := by
        simpa [Build, hb] using hok
      obtain ⟨dirs, t1, h1, h2, h3, h4, h5⟩ := buildFrom_success true d0 b w hok'
      exact ⟨dirs, t1, h1, h2, h3, h4, by simp [Build, hb, h5]⟩

/-! ## Lemmas: kinds and leaf steps -/

/-- A kind-matching pair coerces identically (same constructor, same
width). -/
theorem kindMatches_coerceOk (v lv : Value) (h : kindMatches v lv = true) (s : String) :
    coerceOk lv s = coerceOk v s := by
  cases v <;> cases lv <;> simp_all [kindMatches, coerceOk]

/-- A kind-matching document leaf is itself non-struct. -/
theorem kindMatches_nonstruct (v lv : Value) (h : kindMatches v lv = true) :
    isStructV lv = false := by
  cases v <;> cases lv <;> simp_all [kindMatches, isStructV]

/-- An empty environment value at the field's key leaves the field
untouched. -/
theorem leafStep_emptyEnv (env : GoEnv) (pre tag pp : String) (g : Field) (t : String)
    (htag : tagLookup g.tags tag = some t) (ht : t ≠ "")
    (henv : env (pre ++ joinPath pp t) = "") :
    leafStep env pre tag pp g = (g, none) := by
  unfold leafStep
  rw [htag]
  simp [ht, henv]

/-- A non-empty environment value at the field's key runs the coercion
switch. -/
theorem leafStep_withEnv (env : GoEnv) (pre tag pp : String) (g : Field) (t : String)
    (htag : tagLookup g.tags tag = some t) (ht : t ≠ "")
    (henv : env (pre ++ joinPath pp t) ≠ "") :
    leafStep env pre tag pp g = setFieldFromEnv g t (env (pre ++ joinPath pp t)) := by
  unfold leafStep
  rw [htag]
  simp [ht, henv]

/-- A field with no tag (or an empty tag) is never looked up. -/
theorem leafStep_noTag (env : GoEnv) (pre tag pp : String) (g : Field)
    (htag : tagLookup g.tags tag = none ∨ tagLookup g.tags tag = some "") :
    leafStep env pre tag pp g = (g, none) := by
  unfold leafStep
  cases htag with
  | inl h => rw [h]
  | inr h => rw [h]; simp

/-! ## Lemmas: the JSON overlay preserves the struct spine -/

/-- `jFieldStep` keeps name, exportedness and tags. -/
theorem jFieldStep_shape (kvs : JProps) (f : Field) :
    ∃ v', (jFieldStep kvs f).1 = .mk f.name f.exported f.tags v' := by
  cases f with
  | mk nm ex ts v =>
    cases ex
    · exact ⟨v, by simp [jFieldStep]⟩
    · cases hk : jsonKeyOf nm ts with
      | none => exact ⟨v, by simp [jFieldStep, hk]⟩
      | some key =>
        cases hf : kvs.find? key with
        | none => exact ⟨v, by simp [jFieldStep, hk, hf]⟩
        | some jv => exact ⟨(applyJVal v jv).1, by simp [jFieldStep, hk, hf]⟩

/-- `jFieldStep` on a struct-valued field: unchanged, or the struct
overlaid with some sub-object. -/
theorem jFieldStep_structContent (kvs : JProps) (nm : String) (ex : Bool)
    (ts : List (String × String)) (gs : Fields) :
    (jFieldStep kvs (.mk nm ex ts (.struct gs))).1 = .mk nm ex ts (.struct gs) ∨
    ∃ kvs2, (jFieldStep kvs (.mk nm ex ts (.struct gs))).1 =
      .mk nm ex ts (.struct (applyJObj kvs2 gs).1) := by
  cases ex
  · left; simp [jFieldStep]
  · cases hk : jsonKeyOf nm ts with
    | none => left; simp [jFieldStep, hk]
    | some key =>
      cases hf : kvs.find? key with
      | none => left; simp [jFieldStep, hk, hf]
      | some jv =>
        cases jv with
        | leaf lv => left; simp [jFieldStep, hk, hf, applyJVal]
        | obj kvs2 => right; exact ⟨kvs2, by simp [jFieldStep, hk, hf, applyJVal]⟩

/-- Decoding a document leaf into a non-struct value stays non-struct. -/
theorem applyJVal_leaf_nonstruct (v lv : Value) (hns : isStructV v = false) :
    isStructV ((applyJVal v (.leaf lv)).1) = false := by
  have key : ∀ (u : Value), isStructV u = false →
      isStructV ((if kindMatches u lv = true then ((lv : Value), (none : Option String))
        else (u, some "json: cannot unmarshal value of mismatched type")).1) = false := by
    intro u hu
    by_cases hm : kindMatches u lv = true
    · simpa [hm] using kindMatches_nonstruct u lv hm
    · simpa [hm] using hu
  cases v
  case struct => simp [isStructV] at hns
  all_goals exact key _ hns

/-- `jFieldStep` keeps non-struct values non-struct. -/
theorem jFieldStep_nonstruct (kvs : JProps) (nm : String) (ex : Bool)
    (ts : List (String × String)) (v : Value) (hns : isStructV v = false) :
    isStructV ((jFieldStep kvs (.mk nm ex ts v)).1).value = false := by
  cases ex
  · simpa [jFieldStep] using hns
  · cases hk : jsonKeyOf nm ts with
    | none => simpa [jFieldStep, hk] using hns
    | some key =>
      cases hf : kvs.find? key with
      | none => simpa [jFieldStep, hk, hf] using hns
      | some jv =>
        cases jv with
        | obj kvs2 =>
          cases v
          case struct => simp [isStructV] at hns
          all_goals simp [jFieldStep, hk, hf, applyJVal, isStructV]
        | leaf lv =>
          simp only [jFieldStep, hk, hf, Field.value_mk]
          simpa using applyJVal_leaf_nonstruct v lv hns

/-- A path descending through a non-struct field selects nothing. -/
theorem exportedChain_cons_nonstruct (fs : Fields) (i j : Nat) (q : List Nat) (f : Field)
    (hg : fs.get? i = some f) (hns : isStructV f.value = false) :
    fs.exportedChain i (j :: q) = false := by
  cases f with
  | mk nm ex ts v =>
    cases v
    case struct => simp [isStructV] at hns
    all_goals simp [Fields.exportedChain, hg]

/-- A path descending through a non-struct field has no accumulated
path. -/
theorem ppAt_cons_nonstruct (fs : Fields) (i j : Nat) (q : List Nat) (f : Field)
    (tag pp : String) (hg : fs.get? i = some f) (hns : isStructV f.value = false) :
    fs.ppAt tag pp i (j :: q) = none := by
  cases f with
  | mk nm ex ts v =>
    cases v
    case struct => simp [isStructV] at hns
    all_goals simp [Fields.ppAt, hg]

/-- Preservation at a descending path whose first field is non-struct:
both sides trivialize. -/
theorem applyJObj_preserves_nonstruct (kvs : JProps) (fs : Fields) (i j : Nat)
    (q : List Nat) (f : Field) (hg : fs.get? i = some f)
    (hns : isStructV f.value = false)
    (h1 : (applyJObj kvs fs).1.get? i = (fs.get? i).map (fun f => (jFieldStep kvs f).1)) :
    ((applyJObj kvs fs).1.exportedChain i (j :: q) = fs.exportedChain i (j :: q)) ∧
    (∀ tag pp, (applyJObj kvs fs).1.ppAt tag pp i (j :: q) = fs.ppAt tag pp i (j :: q)) := by
  have hns2 : isStructV ((jFieldStep kvs f).1).value = false := by
    cases f with
    | mk nm ex ts v => exact jFieldStep_nonstruct kvs nm ex ts v (by simpa using hns)
  have hg' : (applyJObj kvs fs).1.get? i = some ((jFieldStep kvs f).1) := by
    rw [h1, hg]; rfl
  constructor
  · rw [exportedChain_cons_nonstruct _ _ _ _ _ hg' hns2,
        exportedChain_cons_nonstruct _ _ _ _ _ hg hns]
  · intro tag pp
    rw [ppAt_cons_nonstruct _ _ _ _ _ tag pp hg' hns2,
        ppAt_cons_nonstruct _ _ _ _ _ tag pp hg hns]

/-- The JSON overlay changes neither which fields are exported along a
path nor the accumulated tag path. -/
theorem applyJObj_preserves :
    ∀ (p : List Nat) (kvs : JProps) (i : Nat) (fs : Fields),
      ((applyJObj kvs fs).1.exportedChain i p = fs.exportedChain i p) ∧
      (∀ tag pp, (applyJObj kvs fs).1.ppAt tag pp i p = fs.ppAt tag pp i p) := by
  intro p
  induction p with
  | nil =>
    intro kvs i fs
    have h1 := applyJObj_get kvs fs i
    cases hg : fs.get? i with
    | none => simp [Fields.exportedChain, Fields.ppAt, h1, hg]
    | some f =>
      obtain ⟨v', hshape⟩ := jFieldStep_shape kvs f
      constructor
      · simp [Fields.exportedChain, h1, hg, hshape]
      · intro tag pp
        simp [Fields.ppAt, h1, hg, hshape]
  | cons j q ih =>
    intro kvs i fs
    have h1 := applyJObj_get kvs fs i
    cases hg : fs.get? i with
    | none => simp [Fields.exportedChain, Fields.ppAt, h1, hg]
    | some f =>
      cases f with
      | mk nm ex ts v =>
        cases v
        case struct gs =>
          cases jFieldStep_structContent kvs nm ex ts gs with
          | inl hunch =>
            constructor
            · simp [Fields.exportedChain, h1, hg, hunch]
            · intro tag pp
              simp [Fields.ppAt, h1, hg, hunch]
          | inr hov =>
            obtain ⟨kvs2, hov⟩ := hov
            obtain ⟨ihe, ihp⟩ := ih kvs2 j gs
            constructor
            · simp [Fields.exportedChain, h1, hg, hov, ihe]
            · intro tag pp
              simp [Fields.ppAt, h1, hg, hov, ihp tag]
        all_goals
          exact applyJObj_preserves_nonstruct kvs fs i j q _ hg (by simp [isStructV]) h1

/-- `truncInt` always lands in the destination kind's range. -/
theorem truncInt_range (w : IntW) (n : Int) :
    -(2 ^ (w.bits - 1)) ≤ truncInt w n ∧ truncInt w n < 2 ^ (w.bits - 1) := by
  have hb : 1 ≤ w.bits := by cases w <;> simp [IntW.bits]
  have hpos : (0 : Int) < 2 ^ w.bits := by positivity
  have hlo : 0 ≤ n.emod (2 ^ w.bits) := Int.emod_nonneg n (ne_of_gt hpos)
  have hhi : n.emod (2 ^ w.bits) < 2 ^ w.bits := Int.emod_lt_of_pos n hpos
  have hhalf : (0 : Int) ≤ 2 ^ (w.bits - 1) := by positivity
  have hsplit : (2 : Int) ^ w.bits = 2 * 2 ^ (w.bits - 1) := by
    conv_lhs => rw [show w.bits = (w.bits - 1) + 1 from (Nat.succ_pred_eq_of_pos hb).symm]
    rw [pow_succ]
    ring
  simp only [truncInt]
  split
  · constructor <;> linarith
  · constructor <;> linarith

/-! ## The claims -/

/-- C7: a builder whose stored default is a nil pointer fails immediately
with the nil-source error: the returned configuration is the zero (nil)
instance, the process environment is untouched, the builder is untouched,
and no pipeline stage (clone, file, env-file discovery, env overlay,
validation) is entered. -/
theorem c7_nil_default_fails_immediately (pre tagk : String) (files : List String)
    (fp : Option String) (w : World) :
    Build ⟨.ptr none, pre, tagk, files, fp⟩ w =
      { conf := .ptr none,
        err := some "cannot load environment variables into nil pointer",
        envAfter := w.env0,
        builderAfter := ⟨.ptr none, pre, tagk, files, fp⟩,
        steps := [] } := rfl

@[simp] theorem heapGet_cons_succ (arr : List String) (rest : Heap) (n : Nat) :
    heapGet (arr :: rest) (n + 1) = heapGet rest n := rfl

/-- C4 fails as stated: a *struct-typed* tagged field whose own computed
key has an empty environment value is still changed by the overlay phase
when a descendant's key is set.  Here `Database` is tagged `DB`, the env
value at its key `APP_DB` is empty, yet its value changes via
`APP_DB_HOST`. -/
theorem c4_counterexample :
    (fun k => if k = "APP_DB_HOST" then "x" else "") ("APP_" ++ joinPath "" "DB") = "" ∧
    (loadFields (fun k => if k = "APP_DB_HOST" then "x" else "") "APP_" "env" ""
        (.cons (.mk "Database" true [("env", "DB")]
          (.struct (.cons (.mk "Host" true [("env", "HOST")] (.str "localhost")) .nil))) .nil)).1 ≠
      .cons (.mk "Database" true [("env", "DB")]
        (.struct (.cons (.mk "Host" true [("env", "HOST")] (.str "localhost")) .nil))) .nil := by
  constructor
  · rfl
  · decide

/-- C4 (amended): for every tagged field of *non-struct* kind, an unset or
empty environment value at its computed key leaves the field's current
value unchanged (and produces no error).  A struct-typed tagged field may
still change through its tagged descendants' own keys. -/
theorem c4_empty_env_keeps_value (env : GoEnv) (pre tag pp : String) (f : Field)
    (t : String) (hns : isStructV f.value = false)
    (htag : tagLookup f.tags tag = some t) (ht : t ≠ "")
    (henv : env (pre ++ joinPath pp t) = "") :
    loadField env pre tag pp f = (f, none) := by
  cases hex : f.exported with
  | false => exact loadField_unexported env pre tag pp f hex
  | true =>
    rw [loadField_nonstruct env pre tag pp f hex hns]
    exact leafStep_emptyEnv env pre tag pp f t htag ht henv

/-- C4 witness: default `LoadFactor`-style field with an empty env value
is retained (shown on an integer field to keep the witness computable). -/
theorem c4_empty_env_keeps_value_witness :
    loadField (fun _ => "") "" "env" ""
        (.mk "Port" true [("env", "PORT")] (.intv .iword 8080)) =
      (.mk "Port" true [("env", "PORT")] (.intv .iword 8080), none) :=
  c4_empty_env_keeps_value (fun _ => "") "" "env" ""
    (.mk "Port" true [("env", "PORT")] (.intv .iword 8080)) "PORT"
    (by decide) (by decide) (by decide) (by decide)

/-- C8: a string-slice field with a non-empty environment value is set to
the raw value split on `","` with surrounding whitespace trimmed from
each element — order preserved, duplicates preserved, empty elements
never filtered. -/
theorem c8_slice_split_trim (env : GoEnv) (pre tag pp nm : String)
    (ts : List (String × String)) (xs : List String) (t : String)
    (htag : tagLookup ts tag = some t) (ht : t ≠ "")
    (henv : env (pre ++ joinPath pp t) ≠ "") :
    loadField env pre tag pp (.mk nm true ts (.strSlice xs)) =
      (.mk nm true ts
        (.strSlice ((goSplitComma (env (pre ++ joinPath pp t))).map trimSpace)), none) := by
  rw [loadField_nonstruct _ _ _ _ _ (by simp) (by simp [isStructV])]
  rw [leafStep_withEnv _ _ _ _ _ t (by simpa using htag) ht henv]
  simp [setFieldFromEnv, splitTrim]

/-- C8 witness: `" tag1 , tag2 "` gives `["tag1", "tag2"]` and `"a,,b"`
gives `["a", "", "b"]`. -/
theorem c8_slice_split_trim_witness :
    loadField (fun k => if k = "TAGS" then " tag1 , tag2 " else "") "" "env" ""
        (.mk "Tags" true [("env", "TAGS")] (.strSlice ["default"])) =
      (.mk "Tags" true [("env", "TAGS")] (.strSlice ["tag1", "tag2"]), none) ∧
    loadField (fun k => if k = "TAGS" then "a,,b" else "") "" "env" ""
        (.mk "Tags" true [("env", "TAGS")] (.strSlice [])) =
      (.mk "Tags" true [("env", "TAGS")] (.strSlice ["a", "", "b"]), none) := by
  constructor
  · exact (c8_slice_split_trim (fun k => if k = "TAGS" then " tag1 , tag2 " else "")
      "" "env" "" "Tags" [("env", "TAGS")] ["default"] "TAGS"
      (by decide) (by decide) (by decide)).trans (by decide)
  · exact (c8_slice_split_trim (fun k => if k = "TAGS" then "a,,b" else "")
      "" "env" "" "Tags" [("env", "TAGS")] [] "TAGS"
      (by decide) (by decide) (by decide)).trans (by decide)

/-- C10 fails as stated: an int8 field with environment value `"300"`
(valid in 64 bits, out of range for int8) neither panics nor errors — the
overlay returns normally with the two's-complement truncation `44`
stored. -/
theorem c10_counterexample :
    loadFields (fun k => if k = "N8" then "300" else "") "" "env" ""
        (.cons (.mk "Small" true [("env", "N8")] (.intv .i8 1)) .nil) =
      (.cons (.mk "Small" true [("env", "N8")] (.intv .i8 44)) .nil, none) := by
  decide

/-- C10 (amended): an integer environment value is parsed at 64-bit
width; the reflective `SetInt`/`SetUint` then performs Go's truncating
conversion, so a value outside a narrower destination kind is silently
wrapped (reduced modulo `2^bits`, two's complement for signed kinds)
into the kind's range — no error and no panic, for signed and unsigned
kinds alike.  Only literals outside 64 bits fail (as a returned coercion
error from `ParseInt`/`ParseUint`). -/
theorem c10_narrow_int_truncates (f : Field) (envVar s : String) (w : IntW) :
    (∀ (n0 n : Int), f.value = .intv w n0 → parseInt64 s = .ok n →
      setFieldFromEnv f envVar s = (f.withValue (.intv w (truncInt w n)), none) ∧
      -(2 ^ (w.bits - 1)) ≤ truncInt w n ∧ truncInt w n < 2 ^ (w.bits - 1)) ∧
    (∀ (n0 n : Nat), f.value = .uintv w n0 → parseUint64 s = .ok n →
      setFieldFromEnv f envVar s = (f.withValue (.uintv w (truncUint w n)), none) ∧
      truncUint w n < 2 ^ w.bits) := by
  constructor
  · intro n0 n hv hp
    refine ⟨?_, truncInt_range w n⟩
    cases f with
    | mk nm ex ts v =>
      simp only [Field.value_mk] at hv
      subst hv
      simp [setFieldFromEnv, hp]
  · intro n0 n hv hp
    refine ⟨?_, Nat.mod_lt _ (by positivity)⟩
    cases f with
    | mk nm ex ts v =>
      simp only [Field.value_mk] at hv
      subst hv
      simp [setFieldFromEnv, hp]

/-- C10 witness: `"300"` into an int8 field stores `44` (in `[-128,128)`)
and `"300"` into a uint8 field stores `44` (in `[0,256)`); both builds of
the field succeed, neither errors. -/
theorem c10_narrow_int_truncates_witness :
    (setFieldFromEnv (.mk "Small" true [("env", "N8")] (.intv .i8 1)) "N8" "300" =
      (.mk "Small" true [("env", "N8")] (.intv .i8 (truncInt .i8 300)), none) ∧
    -(2 ^ (IntW.bits .i8 - 1)) ≤ truncInt .i8 300 ∧
    truncInt .i8 300 < 2 ^ (IntW.bits .i8 - 1)) ∧
    (setFieldFromEnv (.mk "USmall" true [("env", "U8")] (.uintv .i8 1)) "U8" "300" =
      (.mk "USmall" true [("env", "U8")] (.uintv .i8 (truncUint .i8 300)), none) ∧
    truncUint .i8 300 < 2 ^ IntW.bits .i8) := by
  obtain ⟨hs, _⟩ := c10_narrow_int_truncates
    (.mk "Small" true [("env", "N8")] (.intv .i8 1)) "N8" "300" .i8
  obtain ⟨_, hu⟩ := c10_narrow_int_truncates
    (.mk "USmall" true [("env", "U8")] (.uintv .i8 1)) "U8" "300" .i8
  exact ⟨hs 1 300 rfl (by decide), hu 1 300 rfl (by decide)⟩

/-- C9: the ancestor walk with a readable working directory never errors
(finding no file included); after the walk, a key's binding is the prior
environment's if it had one, otherwise the first definition found in
closest-directory-first order — so a variable set by a closer file (or
already present) is never overwritten by a file found farther up, and
every directory up to and including the root is consulted. -/
theorem c9_ancestor_search (files : List String) (dirs : List DirFiles) (e : EnvSt) :
    (loadEnvFromAncestors (.ok dirs) files e = .ok (loadAncestorDirs files dirs e)) ∧
    (∀ k, envLookup (loadAncestorDirs files dirs e) k =
      (envLookup e k <|> firstDef files dirs k)) ∧
    (∀ (dirsB : List DirFiles) (k : String),
      (envLookup (loadAncestorDirs files dirs e) k).isSome →
      envLookup (loadAncestorDirs files (dirs ++ dirsB) e) k =
        envLookup (loadAncestorDirs files dirs e) k) := by
  refine ⟨rfl, fun k => loadAncestorDirs_lookup files k dirs e, ?_⟩
  intro dirsB k h
  obtain ⟨x, hx⟩ := Option.isSome_iff_exists.mp h
  rw [show loadAncestorDirs files (dirs ++ dirsB) e =
        loadAncestorDirs files dirsB (loadAncestorDirs files dirs e) from by
      simp [loadAncestorDirs, List.foldl_append]]
  rw [loadAncestorDirs_lookup files k dirsB _, hx]
  simp

/-- C9 witness: a grandparent-directory file is still loaded from a
nested working directory; a key set by the closer file keeps its closer
value; a pre-existing process variable survives; and no error occurs. -/
theorem c9_ancestor_search_witness :
    (loadEnvFromAncestors
        (.ok [[(".env", some [("A", "near")])], [], [(".env", some [("A", "far"), ("B", "deep")])]])
        [".env"] [("P", "proc")] =
      .ok (loadAncestorDirs [".env"]
        [[(".env", some [("A", "near")])], [], [(".env", some [("A", "far"), ("B", "deep")])]]
        [("P", "proc")])) ∧
    envLookup (loadAncestorDirs [".env"]
        [[(".env", some [("A", "near")])], [], [(".env", some [("A", "far"), ("B", "deep")])]]
        [("P", "proc")]) "A" = some "near" ∧
    envLookup (loadAncestorDirs [".env"]
        [[(".env", some [("A", "near")])], [], [(".env", some [("A", "far"), ("B", "deep")])]]
        [("P", "proc")]) "B" = some "deep" ∧
    envLookup (loadAncestorDirs [".env"]
        [[(".env", some [("A", "near")])], [], [(".env", some [("A", "far"), ("B", "deep")])]]
        [("P", "proc")]) "P" = some "proc" := by
  have h := c9_ancestor_search [".env"]
    [[(".env", some [("A", "near")])], [], [(".env", some [("A", "far"), ("B", "deep")])]]
    [("P", "proc")]
  exact ⟨h.1, (h.2.1 "A").trans (by decide), (h.2.1 "B").trans (by decide),
    (h.2.1 "P").trans (by decide)⟩

/-- C3: (leaf keys) an exported tagged non-struct field under parent path
`pp` consults exactly the environment key
`prefix ++ (pp ++ "_" ++ t)` — or `prefix ++ t` when `pp` is empty — and
does nothing else when that value is empty; (struct recursion) a
struct-typed field with no tag, or an empty tag, is still recursed into
with the parent path passed down unchanged, contributing no segment. -/
theorem c3_key_computation (env : GoEnv) (pre tag pp : String) :
    (∀ (f : Field) (t : String), f.exported = true → isStructV f.value = false →
      tagLookup f.tags tag = some t → t ≠ "" →
      loadField env pre tag pp f =
        (if env (pre ++ (if pp = "" then t else pp ++ "_" ++ t)) = ""
         then (f, none)
         else setFieldFromEnv f t (env (pre ++ (if pp = "" then t else pp ++ "_" ++ t))))) ∧
    (∀ (nm : String) (ts : List (String × String)) (gs : Fields),
      (tagLookup ts tag = none ∨ tagLookup ts tag = some "") →
      (loadField env pre tag pp (.mk nm true ts (.struct gs))).1 =
        .mk nm true ts (.struct (loadFields env pre tag pp gs).1)) := by
  constructor
  · intro f t hex hns htag ht
    rw [loadField_nonstruct env pre tag pp f hex hns]
    by_cases henv : env (pre ++ joinPath pp t) = ""
    · rw [leafStep_emptyEnv env pre tag pp f t htag ht henv]
      simp only [joinPath] at henv
      simp [henv]
    · rw [leafStep_withEnv env pre tag pp f t htag ht henv]
      simp only [joinPath] at henv
      simp [henv, joinPath]
  · intro nm ts gs htag
    rw [loadField_struct]
    have hext : extendPath pp (tagLookup ts tag) = pp := by
      cases htag with
      | inl h => simp [extendPath, h]
      | inr h => simp [extendPath, h]
    rw [hext]
    cases h : (loadFields env pre tag pp gs).2 <;> simp [h]

/-- C3 witness: with prefix `"APP_"`, a `HOST` leaf under a struct tagged
`DB` consults `APP_DB_HOST`; a child of an untagged struct consults
`APP_VALUE` (parent segment omitted), the untagged struct recursing with
the path unchanged. -/
theorem c3_key_computation_witness :
    loadField (fun k => if k = "APP_DB_HOST" then "h" else "") "APP_" "env" "DB"
        (.mk "Host" true [("env", "HOST")] (.str "localhost")) =
      (.mk "Host" true [("env", "HOST")] (.str "h"), none) ∧
    (loadField (fun k => if k = "APP_VALUE" then "v" else "") "APP_" "env" ""
        (.mk "Nested" true []
          (.struct (.cons (.mk "Value" true [("env", "VALUE")] (.str "d")) .nil)))).1 =
      .mk "Nested" true []
        (.struct (.cons (.mk "Value" true [("env", "VALUE")] (.str "v")) .nil)) := by
  constructor
  · exact ((c3_key_computation (fun k => if k = "APP_DB_HOST" then "h" else "")
      "APP_" "env" "DB").1 (.mk "Host" true [("env", "HOST")] (.str "localhost")) "HOST"
      (by decide) (by decide) (by decide) (by decide)).trans (by decide)
  · exact ((c3_key_computation (fun k => if k = "APP_VALUE" then "v" else "")
      "APP_" "env" "").2 "Nested" []
      (.cons (.mk "Value" true [("env", "VALUE")] (.str "d")) .nil)
      (Or.inl (by decide))).trans (by decide)

theorem listPrefixOf_append (x : List Char) : ∀ (b : List Char),
    listPrefixOf x (x ++ b) = true := by
  induction x with
  | nil => intro b; rfl
  | cons a as ih => intro b; simp [listPrefixOf, ih b]

theorem listPrefixOf_extend (x : List Char) : ∀ (h z : List Char),
    listPrefixOf x h = true → listPrefixOf x (h ++ z) = true := by
  induction x with
  | nil => intro h z _; rfl
  | cons a as ih =>
    intro h z hp
    cases h with
    | nil => simp [listPrefixOf] at hp
    | cons b bs =>
      simp only [listPrefixOf, Bool.and_eq_true] at hp
      simp [listPrefixOf, hp.1, ih bs z hp.2]

theorem listContains_append (x b : List Char) : ∀ (a : List Char),
    listContains (a ++ (x ++ b)) x = true := by
  intro a
  induction a with
  | nil =>
    cases x with
    | nil =>
      cases b with
      | nil => rfl
      | cons c cs => simp [listContains, listPrefixOf]
    | cons c cs => simp [listContains, listPrefixOf, listPrefixOf_append]
  | cons c as ih => simp [listContains, ih]

theorem listContains_mono_left (x y : List Char) (h : listContains y x = true) :
    ∀ (z : List Char), listContains (z ++ y) x = true := by
  intro z
  induction z with
  | nil => simpa using h
  | cons c zs ih => simp [listContains, ih]

theorem listContains_mono_right (x : List Char) : ∀ (y z : List Char),
    listContains y x = true → listContains (y ++ z) x = true := by
  intro y
  induction y with
  | nil =>
    intro z h
    simp only [listContains, List.isEmpty_iff] at h
    subst h
    cases z with
    | nil => rfl
    | cons c cs => simp [listContains, listPrefixOf]
  | cons c ys ih =>
    intro z h
    simp only [listContains, Bool.or_eq_true] at h
    cases h with
    | inl hp =>
      have hext := listPrefixOf_extend x (c :: ys) z hp
      simp only [List.cons_append] at hext
      simp [listContains, hext]
    | inr hc => simp [listContains, ih z hc]

/-- A string of the shape `l ++ (x ++ r)` contains `x`. -/
theorem strContains_decomp (hay l x r : String) (h : hay = l ++ (x ++ r)) :
    strContains hay x = true := by
  subst h
  unfold strContains
  rw [show (l ++ (x ++ r)).toList = l.toList ++ (x.toList ++ r.toList) from by
    simp [String.toList]]
  exact listContains_append _ _ _

theorem strContains_mono_left (y x z : String) (h : strContains y x = true) :
    strContains (z ++ y) x = true := by
  unfold strContains at *
  rw [show (z ++ y).toList = z.toList ++ y.toList from by simp [String.toList]]
  exact listContains_mono_left _ _ h _

theorem strContains_mono_right (y x z : String) (h : strContains y x = true) :
    strContains (y ++ z) x = true := by
  unfold strContains at *
  rw [show (y ++ z).toList = y.toList ++ z.toList from by simp [String.toList]]
  exact listContains_mono_right _ _ _ h

/-- `goQuote v` contains `v`. -/
theorem goQuote_contains (v : String) : strContains (goQuote v) v = true :=
  strContains_decomp _ "\"" v "\"" (by simp [goQuote, String.append_assoc])

theorem syntaxErr_contains (fn v : String) : strContains (syntaxErr fn v) v = true := by
  unfold syntaxErr
  exact strContains_mono_right _ _ _ (strContains_mono_left _ _ _ (goQuote_contains v))

theorem rangeErr_contains (fn v : String) : strContains (rangeErr fn v) v = true := by
  unfold rangeErr
  exact strContains_mono_right _ _ _ (strContains_mono_left _ _ _ (goQuote_contains v))

theorem durationInvalid_contains (v : String) :
    strContains (durationInvalid v) v = true := by
  unfold durationInvalid
  exact strContains_mono_left _ _ _ (goQuote_contains v)

theorem durationMissingUnit_contains (v : String) :
    strContains (durationMissingUnit v) v = true := by
  unfold durationMissingUnit
  exact strContains_mono_left _ _ _ (goQuote_contains v)

theorem durationUnknownUnit_contains (u v : String) :
    strContains (durationUnknownUnit u v) v = true := by
  unfold durationUnknownUnit
  exact strContains_mono_left _ _ _ (goQuote_contains v)

/-! ## Error shapes of the parsers -/

theorem parseInt64_error_shape (s m : String) (h : parseInt64 s = .error m) :
    m = syntaxErr "ParseInt" s ∨ m = rangeErr "ParseInt" s := by
  simp only [parseInt64] at h
  repeat' split at h
  all_goals first
    | (exact Or.inl (by injection h with h'; exact h'.symm))
    | (exact Or.inr (by injection h with h'; exact h'.symm))
    | (exact absurd h (by simp))

theorem parseUint64_error_shape (s m : String) (h : parseUint64 s = .error m) :
    m = syntaxErr "ParseUint" s ∨ m = rangeErr "ParseUint" s := by
  simp only [parseUint64] at h
  repeat' split at h
  all_goals first
    | (exact Or.inl (by injection h with h'; exact h'.symm))
    | (exact Or.inr (by injection h with h'; exact h'.symm))
    | (exact absurd h (by simp))

theorem parseBool_error_shape (s m : String) (h : parseBool s = .error m) :
    m = syntaxErr "ParseBool" s := by
  simp only [parseBool] at h
  repeat' split at h
  all_goals first
    | (injection h with h'; exact h'.symm)
    | (exact absurd h (by simp))

theorem parseFloatFinish_error_shape (s : String) (neg : Bool) (q : ℚ) (m : String)
    (h : parseFloatFinish s neg q = .error m) : m = rangeErr "ParseFloat" s := by
  simp only [parseFloatFinish] at h
  repeat' split at h
  all_goals first
    | (injection h with h'; exact h'.symm)
    | (exact absurd h (by simp))

theorem parseFloat_error_shape (s m : String) (h : parseFloat s = .error m) :
    m = syntaxErr "ParseFloat" s ∨ m = rangeErr "ParseFloat" s := by
  simp only [parseFloat] at h
  repeat' split at h
  all_goals first
    | (exact Or.inl (by injection h with h'; exact h'.symm))
    | (exact Or.inr (parseFloatFinish_error_shape s _ _ m h))
    | (exact absurd h (by simp))

theorem parseDurationLoop_error_shape (orig : String) : ∀ (fuel : Nat) (cs : List Char)
    (acc : Nat) (m : String), parseDurationLoop orig fuel cs acc = .error m →
    m = durationInvalid orig ∨ m = durationMissingUnit orig ∨
      ∃ u, m = durationUnknownUnit u orig := by
  intro fuel
  induction fuel with
  | zero =>
    intro cs acc m h
    simp only [parseDurationLoop] at h
    exact Or.inl (by injection h with h'; exact h'.symm)
  | succ fuel ih =>
    intro cs acc m h
    simp only [parseDurationLoop] at h
    cases cs with
    | nil => exact absurd h (by simp)
    | cons c cs' =>
      repeat' split at h
      all_goals first
        | (exact ih _ _ m h)
        | (exact Or.inl (by injection h with h'; exact h'.symm))
        | (exact Or.inr (Or.inl (by injection h with h'; exact h'.symm)))
        | (exact Or.inr (Or.inr ⟨_, by injection h with h'; exact h'.symm⟩))
        | (exact absurd h (by simp))

theorem parseDuration_error_shape (s m : String) (h : parseDuration s = .error m) :
    m = durationInvalid s ∨ m = durationMissingUnit s ∨
      ∃ u, m = durationUnknownUnit u s := by
  simp only [parseDuration] at h
  split at h
  · exact absurd h (by simp)
  · split at h
    · exact Or.inl (by injection h with h'; exact h'.symm)
    · split at h
      · injection h with h'
        subst h'
        exact parseDurationLoop_error_shape s _ _ _ _ (by assumption)
      · exact absurd h (by simp)

theorem listPrefixOf_refl (x : List Char) : listPrefixOf x x = true := by
  induction x with
  | nil => rfl
  | cons a as ih => simp [listPrefixOf, ih]

theorem strContains_refl (v : String) : strContains v v = true := by
  unfold strContains
  cases hv : v.toList with
  | nil => rfl
  | cons c cs =>
    have : listPrefixOf (c :: cs) (c :: cs) = true := listPrefixOf_refl _
    simp [listContains, this]

/-- C6 fails as stated: for a nested field under a prefix, the coercion
error names only the leaf tag segment, not the destination field's full
environment key.  Here the key consulted is `APP_DB_PORT`, but the
message (`error loading sub config field Database: invalid integer value
for PORT: …`) does not contain `APP_DB_PORT`. -/
theorem c6_counterexample :
    (loadFields (fun k => if k = "APP_DB_PORT" then "abc" else "") "APP_" "env" ""
        (.cons (.mk "Database" true [("env", "DB")]
          (.struct (.cons (.mk "Port" true [("env", "PORT")] (.intv .iword 5432)) .nil)))
          .nil)).2 =
      some ("error loading sub config field Database: invalid integer value for PORT: strconv.ParseInt: parsing \"abc\": invalid syntax") ∧
    strContains
      "error loading sub config field Database: invalid integer value for PORT: strconv.ParseInt: parsing \"abc\": invalid syntax"
      "APP_DB_PORT" = false := by
  constructor
  · rfl
  · decide

/-- C6 (amended): a failed coercion on a tagged non-struct field returns
an error and leaves the field unchanged; the message names the field's
(un-prefixed) leaf tag segment and the offending literal — the full
prefixed environment key does not, in general, appear. -/
theorem c6_coercion_error_names_tag_and_literal (env : GoEnv) (pre tag pp : String)
    (f : Field) (t : String)
    (hex : f.exported = true) (hns : isStructV f.value = false)
    (htag : tagLookup f.tags tag = some t) (ht : t ≠ "")
    (henv : env (pre ++ joinPath pp t) ≠ "")
    (hfail : coerceOk f.value (env (pre ++ joinPath pp t)) = none) :
    ∃ m, loadField env pre tag pp f = (f, some m) ∧
      strContains m t = true ∧
      strContains m (env (pre ++ joinPath pp t)) = true := by
  have hstep : loadField env pre tag pp f = (f, coerceErrMsg f.value t (env (pre ++ joinPath pp t))) := by
    rw [loadField_nonstruct env pre tag pp f hex hns,
        leafStep_withEnv env pre tag pp f t htag ht henv,
        setFieldFromEnv_eq_coerce, hfail]
  cases hval : f.value with
  | str s0 => rw [hval] at hfail; simp [coerceOk] at hfail
  | strSlice xs => rw [hval] at hfail; simp [coerceOk] at hfail
  | struct gs => rw [hval] at hns; simp [isStructV] at hns
  | intv w n =>
    rw [hval] at hfail hstep
    cases hp : parseInt64 (env (pre ++ joinPath pp t)) with
    | ok x => simp [coerceOk, hp, Except.toOption] at hfail
    | error m0 =>
      refine ⟨"invalid integer value for " ++ t ++ ": " ++ m0, ?_, ?_, ?_⟩
      · rw [hstep]; simp [coerceErrMsg, hp]
      · exact strContains_decomp _ "invalid integer value for " t (": " ++ m0)
          (by simp [String.append_assoc])
      · have hm0 : strContains m0 (env (pre ++ joinPath pp t)) = true := by
          cases parseInt64_error_shape _ m0 hp with
          | inl h => rw [h]; exact syntaxErr_contains _ _
          | inr h => rw [h]; exact rangeErr_contains _ _
        exact strContains_mono_left _ _ _ hm0
  | uintv w n =>
    rw [hval] at hfail hstep
    cases hp : parseUint64 (env (pre ++ joinPath pp t)) with
    | ok x => simp [coerceOk, hp, Except.toOption] at hfail
    | error m0 =>
      refine ⟨"invalid unsigned integer value for " ++ t ++ ": " ++ m0, ?_, ?_, ?_⟩
      · rw [hstep]; simp [coerceErrMsg, hp]
      · exact strContains_decomp _ "invalid unsigned integer value for " t (": " ++ m0)
          (by simp [String.append_assoc])
      · have hm0 : strContains m0 (env (pre ++ joinPath pp t)) = true := by
          cases parseUint64_error_shape _ m0 hp with
          | inl h => rw [h]; exact syntaxErr_contains _ _
          | inr h => rw [h]; exact rangeErr_contains _ _
        exact strContains_mono_left _ _ _ hm0
  | floatv is32 q =>
    rw [hval] at hfail hstep
    cases hp : parseFloat (env (pre ++ joinPath pp t)) with
    | ok x => simp [coerceOk, hp, Except.toOption] at hfail
    | error m0 =>
      refine ⟨"invalid float value for " ++ t ++ ": " ++ m0, ?_, ?_, ?_⟩
      · rw [hstep]; simp [coerceErrMsg, hp]
      · exact strContains_decomp _ "invalid float value for " t (": " ++ m0)
          (by simp [String.append_assoc])
      · have hm0 : strContains m0 (env (pre ++ joinPath pp t)) = true := by
          cases parseFloat_error_shape _ m0 hp with
          | inl h => rw [h]; exact syntaxErr_contains _ _
          | inr h => rw [h]; exact rangeErr_contains _ _
        exact strContains_mono_left _ _ _ hm0
  | boolv b0 =>
    rw [hval] at hfail hstep
    cases hp : parseBool (env (pre ++ joinPath pp t)) with
    | ok x => simp [coerceOk, hp, Except.toOption] at hfail
    | error m0 =>
      refine ⟨"invalid boolean value for " ++ t ++ ": " ++ m0, ?_, ?_, ?_⟩
      · rw [hstep]; simp [coerceErrMsg, hp]
      · exact strContains_decomp _ "invalid boolean value for " t (": " ++ m0)
          (by simp [String.append_assoc])
      · have hm0 : strContains m0 (env (pre ++ joinPath pp t)) = true := by
          rw [parseBool_error_shape _ m0 hp]
          exact syntaxErr_contains _ _
        exact strContains_mono_left _ _ _ hm0
  | duration d0 =>
    rw [hval] at hfail hstep
    cases hp : parseDuration (env (pre ++ joinPath pp t)) with
    | ok x => simp [coerceOk, hp, Except.toOption] at hfail
    | error m0 =>
      refine ⟨"invalid duration value for " ++ t ++ ": " ++ m0, ?_, ?_, ?_⟩
      · rw [hstep]; simp [coerceErrMsg, hp]
      · exact strContains_decomp _ "invalid duration value for " t (": " ++ m0)
          (by simp [String.append_assoc])
      · have hm0 : strContains m0 (env (pre ++ joinPath pp t)) = true := by
          rcases parseDuration_error_shape _ m0 hp with h | h | ⟨u, h⟩
          · rw [h]; exact durationInvalid_contains _
          · rw [h]; exact durationMissingUnit_contains _
          · rw [h]; exact durationUnknownUnit_contains _ _
        exact strContains_mono_left _ _ _ hm0
  | level l0 =>
    rw [hval] at hfail hstep
    cases hp : parseLevel (asciiUpper (env (pre ++ joinPath pp t))) with
    | some x => simp [coerceOk, hp] at hfail
    | none =>
      refine ⟨"invalid slog level value for " ++ t ++ ": " ++ env (pre ++ joinPath pp t),
        ?_, ?_, ?_⟩
      · rw [hstep]; simp [coerceErrMsg, hp]
      · exact strContains_decomp _ "invalid slog level value for " t
          (": " ++ env (pre ++ joinPath pp t)) (by simp [String.append_assoc])
      · exact strContains_mono_left _ _ _ (strContains_refl _)

/-- C6 witness: `PORT=not-an-int` on a flat integer field errors, keeps
the default, and the message names `PORT` and `not-an-int`. -/
theorem c6_coercion_error_witness :
    ∃ m, loadField (fun k => if k = "PORT" then "not-an-int" else "") "" "env" ""
        (.mk "Port" true [("env", "PORT")] (.intv .iword 8080)) =
      (.mk "Port" true [("env", "PORT")] (.intv .iword 8080), some m) ∧
      strContains m "PORT" = true ∧
      strContains m ((fun k => if k = "PORT" then "not-an-int" else "")
        ("" ++ joinPath "" "PORT")) = true :=
  c6_coercion_error_names_tag_and_literal
    (fun k => if k = "PORT" then "not-an-int" else "") "" "env" ""
    (.mk "Port" true [("env", "PORT")] (.intv .iword 8080)) "PORT"
    (by decide) (by decide) (by decide) (by decide) (by decide) (by decide)

/-- C1 fails as stated: a failing `Build` can return a (here fully)
merged configuration rather than the zero instance — the validation
failure below returns `A = "hi"` while the zero instance has `A = ""`. -/
theorem c1_counterexample :
    ((Build (New (.val (.struct (.cons (.mk "A" true [("env", "A")] (.str "hi")) .nil))))
        { readFile := fun _ => .readErr "no such file", cwd := .ok [], env0 := [],
          validate := fun _ => some "validation failed" }).err).isSome = true ∧
    (Build (New (.val (.struct (.cons (.mk "A" true [("env", "A")] (.str "hi")) .nil))))
        { readFile := fun _ => .readErr "no such file", cwd := .ok [], env0 := [],
          validate := fun _ => some "validation failed" }).conf ≠
      Conf.zeroOf (.val (.struct (.cons (.mk "A" true [("env", "A")] (.str "hi")) .nil))) := by
  constructor
  · rfl
  · decide

/-- C1 (amended): there is a partial-success return — when every stage
before validation succeeds and validation rejects the merged value,
`Build` returns, alongside the validation error, the working target with
the file and environment overlays fully applied (for a pointer type, a
non-nil pointer to it), not the zero instance. -/
theorem c1_failure_returns_merged_target (b : GoBuilder) (w : World) (d : Value)
    (dirs : List DirFiles) (m : String)
    (hconf : b.config.inner = some d)
    (hfile : (fileStage d b w).2 = none)
    (hcwd : w.cwd = .ok dirs)
    (henv : (loadEnvToStruct (getenv (loadAncestorDirs b.envFiles dirs w.env0))
        b.envPrefix b.envTag "" (fileStage d b w).1).2 = none)
    (hval : w.validate (loadEnvToStruct (getenv (loadAncestorDirs b.envFiles dirs w.env0))
        b.envPrefix b.envTag "" (fileStage d b w).1).1 = some m) :
    (Build b w).err = some ("invalid configuration: " ++ m) ∧
    (Build b w).conf.inner =
      some (loadEnvToStruct (getenv (loadAncestorDirs b.envFiles dirs w.env0))
        b.envPrefix b.envTag "" (fileStage d b w).1).1 := by
  cases hb : b.config with
  | val d0 =>
    have hd : d0 = d := by simpa [hb, Conf.inner] using hconf
    subst hd
    constructor <;>
      simp [Build, hb, buildFrom, hfile, loadEnvFromAncestors, hcwd, henv, hval]
  | ptr pv =>
    cases pv with
    | none => simp [hb, Conf.inner] at hconf
    | some d0 =>
      have hd : d0 = d := by simpa [hb, Conf.inner] using hconf
      subst hd
      constructor <;>
        simp [Build, hb, buildFrom, hfile, loadEnvFromAncestors, hcwd, henv, hval]

/-- C1 witness: the concrete failing build above, decomposed through the
amended theorem. -/
theorem c1_failure_returns_merged_target_witness :
    (Build (New (.val (.struct (.cons (.mk "A" true [("env", "A")] (.str "hi")) .nil))))
        { readFile := fun _ => .readErr "no such file", cwd := .ok [], env0 := [],
          validate := fun _ => some "validation failed" }).err =
      some ("invalid configuration: " ++ "validation failed") ∧
    (Build (New (.val (.struct (.cons (.mk "A" true [("env", "A")] (.str "hi")) .nil))))
        { readFile := fun _ => .readErr "no such file", cwd := .ok [], env0 := [],
          validate := fun _ => some "validation failed" }).conf.inner =
      some (loadEnvToStruct (getenv (loadAncestorDirs [] [] []))
        "" "env" ""
        (fileStage (.struct (.cons (.mk "A" true [("env", "A")] (.str "hi")) .nil))
          (New (.val (.struct (.cons (.mk "A" true [("env", "A")] (.str "hi")) .nil))))
          { readFile := fun _ => .readErr "no such file", cwd := .ok [], env0 := [],
            validate := fun _ => some "validation failed" }).1).1 :=
  c1_failure_returns_merged_target
    (New (.val (.struct (.cons (.mk "A" true [("env", "A")] (.str "hi")) .nil))))
    { readFile := fun _ => .readErr "no such file", cwd := .ok [], env0 := [],
      validate := fun _ => some "validation failed" }
    (.struct (.cons (.mk "A" true [("env", "A")] (.str "hi")) .nil))
    [] "validation failed" rfl (by decide) rfl (by decide) rfl

/-! ## C2: precedence env > file > default -/

@[simp] theorem Field.tags_withValue (f : Field) (v : Value) :
    (f.withValue v).tags = f.tags := by cases f; rfl

@[simp] theorem Field.name_withValue (f : Field) (v : Value) :
    (f.withValue v).name = f.name := by cases f; rfl

@[simp] theorem Field.exported_withValue (f : Field) (v : Value) :
    (f.withValue v).exported = f.exported := by cases f; rfl

@[simp] theorem Field.value_withValue (f : Field) (v : Value) :
    (f.withValue v).value = v := by cases f; rfl

@[simp] theorem Field.withValue_withValue (f : Field) (v v' : Value) :
    (f.withValue v).withValue v' = f.withValue v' := by cases f; rfl

/-- An error-free coercion switch on a non-struct destination always
produced a value. -/
theorem coerceErrMsg_none_some (u : Value) (t s : String) (hns : isStructV u = false)
    (h : coerceErrMsg u t s = none) : ∃ cv, coerceOk u s = some cv := by
  cases u with
  | str s0 => exact ⟨.str s, rfl⟩
  | strSlice xs => exact ⟨.strSlice (splitTrim s), rfl⟩
  | struct gs => simp [isStructV] at hns
  | duration d0 =>
    cases hp : parseDuration s with
    | error m0 => simp [coerceErrMsg, hp] at h
    | ok n => exact ⟨.duration n, by simp [coerceOk, hp, Except.toOption]⟩
  | level l0 =>
    cases hp : parseLevel (asciiUpper s) with
    | none => simp [coerceErrMsg, hp] at h
    | some n => exact ⟨.level n, by simp [coerceOk, hp]⟩
  | intv w n0 =>
    cases hp : parseInt64 s with
    | error m0 => simp [coerceErrMsg, hp] at h
    | ok n => exact ⟨.intv w (truncInt w n), by simp [coerceOk, hp, Except.toOption]⟩
  | uintv w n0 =>
    cases hp : parseUint64 s with
    | error m0 => simp [coerceErrMsg, hp] at h
    | ok n => exact ⟨.uintv w (truncUint w n), by simp [coerceOk, hp, Except.toOption]⟩
  | floatv is32 q0 =>
    cases hp : parseFloat s with
    | error m0 => simp [coerceErrMsg, hp] at h
    | ok q => exact ⟨.floatv is32 q, by simp [coerceOk, hp, Except.toOption]⟩
  | boolv b0 =>
    cases hp : parseBool s with
    | error m0 => simp [coerceErrMsg, hp] at h
    | ok v => exact ⟨.boolv v, by simp [coerceOk, hp, Except.toOption]⟩

/-- The environment phase at one reachable leaf: an empty value keeps the
field, a non-empty value replaces it by its (successful) coercion. -/
theorem envPhase_at (E : GoEnv) (pre tag : String) (fsX : Fields) (i : Nat) (p : List Nat)
    (f1 : Field) (t pp0 : String)
    (hLF : (loadFields E pre tag "" fsX).2 = none)
    (hat1 : fsX.atPath i p = some f1)
    (hchain1 : fsX.exportedChain i p = true)
    (hns1 : isStructV f1.value = false)
    (hpp1 : fsX.ppAt tag "" i p = some pp0)
    (htag1 : tagLookup f1.tags tag = some t) (ht : t ≠ "") :
    (E (pre ++ joinPath pp0 t) = "" →
      (loadFields E pre tag "" fsX).1.atPath i p = some f1) ∧
    (E (pre ++ joinPath pp0 t) ≠ "" →
      ∃ cv, coerceOk f1.value (E (pre ++ joinPath pp0 t)) = some cv ∧
        (loadFields E pre tag "" fsX).1.atPath i p = some (f1.withValue cv)) := by
  obtain ⟨pp', hpp', hatF, hleafok⟩ :=
    loadFields_atPath E pre tag p i "" fsX f1 hLF hat1 hchain1 hns1
  rw [hpp1] at hpp'
  injection hpp' with hpp0
  subst hpp0
  constructor
  · intro hE
    rw [leafStep_emptyEnv E pre tag pp0 f1 t htag1 ht hE] at hatF
    exact hatF
  · intro hE
    rw [leafStep_withEnv E pre tag pp0 f1 t htag1 ht hE] at hatF hleafok
    rw [setFieldFromEnv_eq_coerce] at hatF hleafok
    simp only at hleafok
    obtain ⟨cv, hcv⟩ := coerceErrMsg_none_some f1.value t _ hns1 hleafok
    refine ⟨cv, hcv, ?_⟩
    rw [hcv] at hatF
    exact hatF

/-- C2: source precedence at every tagged, exported, non-struct leaf the
tag-path resolver can reach, on a successful build.  With `k` the
resolver's computed key for the leaf and the effective environment the
one after ancestor-file loading: a non-empty environment value wins (the
stored value is its coercion); otherwise a leaf the configured JSON file
supplies wins; otherwise the default's value is retained. -/
theorem c2_precedence (b : GoBuilder) (w : World) (fs0 : Fields) (dirs : List DirFiles)
    (i : Nat) (p : List Nat) (f : Field) (k : String)
    (hconf : b.config.inner = some (.struct fs0))
    (hok : (Build b w).err = none)
    (hcwd : w.cwd = .ok dirs)
    (hat : fs0.atPath i p = some f)
    (hchain : fs0.exportedChain i p = true)
    (hns : isStructV f.value = false)
    (hkey : fs0.keyAt b.envTag "" i p = some k) :
    ∃ fs', (Build b w).conf.inner = some (.struct fs') ∧
      (getenv (loadAncestorDirs b.envFiles dirs w.env0) (b.envPrefix ++ k) ≠ "" →
        ∃ cv, coerceOk f.value
            (getenv (loadAncestorDirs b.envFiles dirs w.env0) (b.envPrefix ++ k)) = some cv ∧
          fs'.atPath i p = some (f.withValue cv)) ∧
      (getenv (loadAncestorDirs b.envFiles dirs w.env0) (b.envPrefix ++ k) = "" →
        (∀ kvs lv, fileProps b w = some kvs →
          fs0.jsonSuppliedAt kvs i p = some (.leaf lv) →
          fs'.atPath i p = some (f.withValue lv)) ∧
        ((∀ kvs, fileProps b w = some kvs → fs0.jsonSuppliedAt kvs i p = none) →
          fs'.atPath i p = some f)) := by
  obtain ⟨dirs', t1, hcwd', hfile, henvok, hvalok, hinner⟩ :=
    build_success b w (.struct fs0) hconf hok
  rw [hcwd] at hcwd'
  injection hcwd' with hdirs
  subst hdirs
  cases hpp0 : fs0.ppAt b.envTag "" i p with
  | none => simp [Fields.keyAt, hpp0] at hkey
  | some pp0 =>
    cases htag0 : tagLookup f.tags b.envTag with
    | none => simp [Fields.keyAt, hpp0, hat, htag0] at hkey
    | some t =>
      by_cases ht : t = ""
      · simp [Fields.keyAt, hpp0, hat, htag0, ht] at hkey
      · have hk : k = joinPath pp0 t := by
          simp [Fields.keyAt, hpp0, hat, htag0, ht] at hkey
          exact hkey.symm
        subst hk
        have hfs2 : (fileStage (.struct fs0) b w).2 = none := by rw [hfile]
        have ht1 : (fileStage (.struct fs0) b w).1 = t1 := by rw [hfile]
        cases fileStage_none fs0 b w hfs2 with
        | inl hA =>
          obtain ⟨hfp, ht1'⟩ := hA
          have ht1eq : t1 = .struct fs0 := by rw [← ht1, ht1']
          rw [ht1eq] at henvok hinner
          have hLF : (loadFields (getenv (loadAncestorDirs b.envFiles dirs w.env0))
              b.envPrefix b.envTag "" fs0).2 = none := by
            simpa [loadEnvToStruct] using henvok
          have hinner' : (Build b w).conf.inner =
              some (.struct (loadFields (getenv (loadAncestorDirs b.envFiles dirs w.env0))
                b.envPrefix b.envTag "" fs0).1) := by
            simpa [loadEnvToStruct] using hinner
          obtain ⟨hempty, hnonempty⟩ :=
            envPhase_at (getenv (loadAncestorDirs b.envFiles dirs w.env0))
              b.envPrefix b.envTag fs0 i p f t pp0 hLF hat hchain hns hpp0 htag0 ht
          refine ⟨_, hinner', ?_, ?_⟩
          · intro hne
            obtain ⟨cv, hcv, hres⟩ := hnonempty hne
            exact ⟨cv, hcv, hres⟩
          · intro heq
            refine ⟨?_, ?_⟩
            · intro kvs lv hfp' _
              rw [hfp] at hfp'
              simp at hfp'
            · intro _
              exact hempty heq
        | inr hB =>
          obtain ⟨kvs0, hfp, hJok, ht1'⟩ := hB
          have ht1eq : t1 = .struct (applyJObj kvs0 fs0).1 := by rw [← ht1, ht1']
          rw [ht1eq] at henvok hinner
          have hLF : (loadFields (getenv (loadAncestorDirs b.envFiles dirs w.env0))
              b.envPrefix b.envTag "" (applyJObj kvs0 fs0).1).2 = none := by
            simpa [loadEnvToStruct] using henvok
          have hinner' : (Build b w).conf.inner =
              some (.struct (loadFields (getenv (loadAncestorDirs b.envFiles dirs w.env0))
                b.envPrefix b.envTag "" (applyJObj kvs0 fs0).1).1) := by
            simpa [loadEnvToStruct] using hinner
          have hat1raw := applyJObj_atPath p kvs0 i fs0 f hat hns
          have hchain1 : (applyJObj kvs0 fs0).1.exportedChain i p = true := by
            rw [(applyJObj_preserves p kvs0 i fs0).1]
            exact hchain
          have hppX : (applyJObj kvs0 fs0).1.ppAt b.envTag "" i p = some pp0 := by
            rw [(applyJObj_preserves p kvs0 i fs0).2 b.envTag ""]
            exact hpp0
          cases hsup : fs0.jsonSuppliedAt kvs0 i p with
          | none =>
            have hat1 : (applyJObj kvs0 fs0).1.atPath i p = some f := by
              rw [hsup] at hat1raw
              exact hat1raw
            obtain ⟨hempty, hnonempty⟩ :=
              envPhase_at (getenv (loadAncestorDirs b.envFiles dirs w.env0))
                b.envPrefix b.envTag (applyJObj kvs0 fs0).1 i p f t pp0
                hLF hat1 hchain1 hns hppX htag0 ht
            refine ⟨_, hinner', ?_, ?_⟩
            · intro hne
              exact hnonempty hne
            · intro heq
              refine ⟨?_, ?_⟩
              · intro kvs lv hfp' hsup'
                rw [hfp] at hfp'
                injection hfp' with hkv
                subst hkv
                rw [hsup] at hsup'
                simp at hsup'
              · intro _
                exact hempty heq
          | some jv =>
            cases jv with
            | obj kvs2 =>
              have hat1 : (applyJObj kvs0 fs0).1.atPath i p = some f := by
                rw [hsup] at hat1raw
                exact hat1raw
              obtain ⟨hempty, hnonempty⟩ :=
                envPhase_at (getenv (loadAncestorDirs b.envFiles dirs w.env0))
                  b.envPrefix b.envTag (applyJObj kvs0 fs0).1 i p f t pp0
                  hLF hat1 hchain1 hns hppX htag0 ht
              refine ⟨_, hinner', ?_, ?_⟩
              · intro hne
                exact hnonempty hne
              · intro heq
                refine ⟨?_, ?_⟩
                · intro kvs lv hfp' hsup'
                  rw [hfp] at hfp'
                  injection hfp' with hkv
                  subst hkv
                  rw [hsup] at hsup'
                  simp at hsup'
                · intro hnot
                  have := hnot kvs0 hfp
                  rw [hsup] at this
                  simp at this
            | leaf lv0 =>
              have hkm : kindMatches f.value lv0 = true :=
                applyJObj_supplied_matches p kvs0 i fs0 f lv0 hJok hat hns hsup
              have hat1 : (applyJObj kvs0 fs0).1.atPath i p = some (f.withValue lv0) := by
                rw [hsup] at hat1raw
                simpa [hkm] using hat1raw
              have hns1 : isStructV (f.withValue lv0).value = false := by
                simpa using kindMatches_nonstruct _ _ hkm
              have htag1 : tagLookup (f.withValue lv0).tags b.envTag = some t := by
                simpa using htag0
              obtain ⟨hempty, hnonempty⟩ :=
                envPhase_at (getenv (loadAncestorDirs b.envFiles dirs w.env0))
                  b.envPrefix b.envTag (applyJObj kvs0 fs0).1 i p
                  (f.withValue lv0) t pp0 hLF hat1 hchain1 hns1 hppX htag1 ht
              refine ⟨_, hinner', ?_, ?_⟩
              · intro hne
                obtain ⟨cv, hcv, hres⟩ := hnonempty hne
                refine ⟨cv, ?_, ?_⟩
                · rw [← kindMatches_coerceOk f.value lv0 hkm]
                  simpa using hcv
                · simpa using hres
              · intro heq
                refine ⟨?_, ?_⟩
                · intro kvs lv hfp' hsup'
                  rw [hfp] at hfp'
                  injection hfp' with hkv
                  subst hkv
                  rw [hsup] at hsup'
                  injection hsup' with hjv
                  injection hjv with hlv
                  subst hlv
                  exact hempty heq
                · intro hnot
                  have := hnot kvs0 hfp
                  rw [hsup] at this
                  simp at this

/-- C2 witness: in the scenario above, `Port` (supplied by file and env)
ends at the env value `9090`; `AppName` (file only) ends at the file
value; `Environment` (neither) keeps the default. -/
theorem c2_precedence_witness : ∃ fs',
    (Build c2wB c2wW).conf.inner = some (.struct fs') ∧
    fs'.atPath 0 [] = some (.mk "AppName" true
      [("json", "app_name"), ("env", "APP_NAME")] (.str "file-app")) ∧
    fs'.atPath 1 [] = some (.mk "Port" true
      [("json", "port"), ("env", "PORT")] (.intv .iword 9090)) ∧
    fs'.atPath 2 [] = some (.mk "Environment" true
      [("json", "environment"), ("env", "ENVIRONMENT")] (.str "development")) := by
  obtain ⟨fsA, hiA, hneA, heqA⟩ := c2_precedence c2wB c2wW c2wFs0 [] 0 []
    (.mk "AppName" true [("json", "app_name"), ("env", "APP_NAME")] (.str "default-app"))
    "APP_NAME" rfl (by decide) rfl (by decide) (by decide) (by decide) (by decide)
  obtain ⟨fsB, hiB, hneB, heqB⟩ := c2_precedence c2wB c2wW c2wFs0 [] 1 []
    (.mk "Port" true [("json", "port"), ("env", "PORT")] (.intv .iword 8080))
    "PORT" rfl (by decide) rfl (by decide) (by decide) (by decide) (by decide)
  obtain ⟨fsC, hiC, hneC, heqC⟩ := c2_precedence c2wB c2wW c2wFs0 [] 2 []
    (.mk "Environment" true [("json", "environment"), ("env", "ENVIRONMENT")]
      (.str "development"))
    "ENVIRONMENT" rfl (by decide) rfl (by decide) (by decide) (by decide) (by decide)
  have hBA : fsB = fsA := by
    rw [hiA] at hiB
    exact (Value.struct.inj (Option.some.inj hiB)).symm
  have hCA : fsC = fsA := by
    rw [hiA] at hiC
    exact (Value.struct.inj (Option.some.inj hiC)).symm
  rw [hBA] at hneB
  rw [hCA] at heqC
  refine ⟨fsA, hiA, ?_, ?_, ?_⟩
  · obtain ⟨hsupp, _⟩ := heqA (by decide)
    exact (hsupp c2wProps (.str "file-app") (by decide) (by decide)).trans (by decide)
  · obtain ⟨cv, hcv, hres⟩ := hneB (by decide)
    simp only [Field.value_mk] at hcv
    have hcv' : coerceOk (Value.intv .iword 8080)
        (getenv (loadAncestorDirs c2wB.envFiles [] c2wW.env0)
          (c2wB.envPrefix ++ "PORT")) = some (.intv .iword 9090) := by decide
    rw [hcv'] at hcv
    injection hcv with hcveq
    rw [← hcveq] at hres
    exact hres.trans (by decide)
  · obtain ⟨_, hkeep⟩ := heqC (by decide)
    exact (hkeep (fun kvs hkvs => by
      have : kvs = c2wProps := by
        have hfp : fileProps c2wB c2wW = some c2wProps := by decide
        rw [hfp] at hkvs
        injection hkvs with h
        exact h.symm
      subst this
      decide)).trans (by decide)

end Confbuilder
